import Mathlib

/-!
# IniFile: a verification development

Shallow embedding of `src/IniFile.h` (the accessor object, its error codes,
`open` / `close` / `isOpen` / `getError` / `clearError` for both storage
backends, and the resumable-scan state token `IniFileState`), together with a
model of the scan engine and lookup controller whose bodies are not part of the
header.
-/

set_option linter.unusedVariables false

namespace IniFile

/-! ## Error codes (`IniFile.h`, lines 38-48) -/

/-- The enumeration `IniFile::error_t`, one constructor per enumerator, in
declaration order. -/
inductive error_t where
  | errorNoError
  | errorFileNotFound
  | errorFileNotOpen
  | errorBufferTooSmall
  | errorSeekError
  | errorSectionNotFound
  | errorKeyNotFound
  | errorEndOfFile
  | errorUnknownError
  deriving DecidableEq, Repr

open error_t

/-- The enumerators of `error_t` as they are written in the header: the name
and the explicit initialiser, when there is one (`errorNoError = 0`). -/
def error_t.declaration : List (error_t × Option Nat) :=
  [ (errorNoError, some 0),
    (errorFileNotFound, none),
    (errorFileNotOpen, none),
    (errorBufferTooSmall, none),
    (errorSeekError, none),
    (errorSectionNotFound, none),
    (errorKeyNotFound, none),
    (errorEndOfFile, none),
    (errorUnknownError, none) ]

/-- The C++ numbering rule for an enumeration: an enumerator with an
initialiser takes that value, one without takes the previous value plus one
(zero for the first). `next` is the value an enumerator without initialiser
would take. -/
def enumValues {α : Type} : Nat → List (α × Option Nat) → List (α × Nat)
  | _, [] => []
  | _, (a, some v) :: rest => (a, v) :: enumValues (v + 1) rest
  | next, (a, none) :: rest => (a, next) :: enumValues (next + 1) rest

/-- The integer value of an error code, computed from the declaration by the
numbering rule. -/
def error_t.toNat (e : error_t) : Nat :=
  match (enumValues 0 error_t.declaration).find? (fun p => decide (p.1 = e)) with
  | some p => p.2
  | none => 0

/-! ## The storage collaborator and the accessor object -/

/-- One call made to the storage layer, as the accessor issues it. `Mode` is
the opaque mode token (`const char*` for SPIFFS, `uint8_t` for SD). -/
inductive FsCall (Mode : Type) where
  /-- The call `SPIFFS.exists(name)` and its answer. -/
  | existsCall (name : List Char) (answer : Bool)
  /-- The call `SPIFFS.open(name, mode)` or `SD.open(name, mode)`, and the handle it
  produced (`none`: the returned `File` converts to `false`). -/
  | openCall (name : List Char) (mode : Mode) (handle : Option Nat)
  /-- The call `_file.close()` on an open handle. -/
  | closeCall (handle : Nat)

/-- The storage layer (`SPIFFS` or `SD`) as a state machine over an arbitrary
state type `σ`: every operation may read and change the storage state. -/
structure Storage (σ Mode : Type) where
  /-- The existence check `exists(name)`. -/
  existsFn : σ → List Char → Bool × σ
  /-- The primitive `open(name, mode)`: a handle, or `none` on failure. -/
  openFn : σ → List Char → Mode → Option Nat × σ
  /-- The primitive `close` of an open handle. -/
  closeFn : σ → Nat → σ

/-- The storage state together with the log of calls made to it so far (most
recent call last). -/
structure World (σ Mode : Type) where
  fs : σ
  log : List (FsCall Mode)

/-- The Arduino `File` object held by the accessor: `some h` when it converts
to `true` (an open handle), `none` when it converts to `false`. -/
abbrev File := Option Nat

end IniFile

/-- The private data members of `class IniFile` (`IniFile.h`, lines 154-163). -/
structure IniFile (Mode : Type) where
  _filename : List Char
  _mode : Mode
  _error : IniFile.error_t
  _file : IniFile.File
  _caseSensitive : Bool

namespace IniFile

open error_t

variable {σ Mode : Type}

/-- The member call `_file.close()` guarded by `if (_file)`, as both `open`
variants and `close` perform it: an open handle is closed in the storage
layer and the member converts to `false` from then on (the behaviour of the
platform's `File::close`); a closed one is left alone. -/
def closeIfOpen (S : Storage σ Mode) (ini : IniFile Mode) (w : World σ Mode) :
    IniFile Mode × World σ Mode :=
  match ini._file with
  | some h => ({ ini with _file := none },
               { fs := S.closeFn w.fs h, log := w.log ++ [FsCall.closeCall h] })
  | none => (ini, w)

/-- The method `IniFile::isOpen`: `_file == true`. -/
def isOpen (ini : IniFile Mode) : Bool :=
  ini._file.isSome

/-- The method `IniFile::open`, SPIFFS variant (`IniFile.h`, lines 167-184). -/
def openSPIFFS (S : Storage σ Mode) (ini : IniFile Mode) (w : World σ Mode) :
    Bool × IniFile Mode × World σ Mode :=
  let (ini1, w1) := closeIfOpen S ini w
  let (ex, fs2) := S.existsFn w1.fs ini1._filename
  let w2 : World σ Mode :=
    { fs := fs2, log := w1.log ++ [FsCall.existsCall ini1._filename ex] }
  if !ex then
    (false, { ini1 with _error := errorFileNotFound }, w2)
  else
    let (h, fs3) := S.openFn w2.fs ini1._filename ini1._mode
    let w3 : World σ Mode :=
      { fs := fs3, log := w2.log ++ [FsCall.openCall ini1._filename ini1._mode h] }
    let ini3 : IniFile Mode := { ini1 with _file := h }
    if ini3._file.isSome then
      (true, { ini3 with _error := errorNoError }, w3)
    else
      (false, { ini3 with _error := errorFileNotFound }, w3)

/-- The method `IniFile::open`, SD variant (`IniFile.h`, lines 186-199). -/
def openSD (S : Storage σ Mode) (ini : IniFile Mode) (w : World σ Mode) :
    Bool × IniFile Mode × World σ Mode :=
  let (ini1, w1) := closeIfOpen S ini w
  let (h, fs2) := S.openFn w1.fs ini1._filename ini1._mode
  let w2 : World σ Mode :=
    { fs := fs2, log := w1.log ++ [FsCall.openCall ini1._filename ini1._mode h] }
  let ini2 : IniFile Mode := { ini1 with _file := h }
  if isOpen ini2 then
    (true, { ini2 with _error := errorNoError }, w2)
  else
    (false, { ini2 with _error := errorFileNotFound }, w2)

/-- The method `IniFile::close` (`IniFile.h`, lines 202-206). -/
def close (S : Storage σ Mode) (ini : IniFile Mode) (w : World σ Mode) :
    IniFile Mode × World σ Mode :=
  closeIfOpen S ini w

/-- The method `IniFile::getError` (`IniFile.h`, lines 213-216): the result and
the accessor afterwards. -/
def getError (ini : IniFile Mode) : error_t × IniFile Mode :=
  (ini._error, ini)

/-- The method `IniFile::clearError` (`IniFile.h`, lines 218-221). -/
def clearError (ini : IniFile Mode) : IniFile Mode :=
  { ini with _error := errorNoError }

/-- The method `IniFile::getMode`. -/
def getMode (ini : IniFile Mode) : Mode :=
  ini._mode

/-- The method `IniFile::getFilename`. -/
def getFilename (ini : IniFile Mode) : List Char :=
  ini._filename

/-- One call of the public interface that touches the file handle. -/
inductive Op where
  | callOpen
  | callClose
  deriving DecidableEq, Repr

/-- The two storage backends the header is compiled for. -/
inductive Backend where
  | spiffs
  | sd
  deriving DecidableEq, Repr

/-- The method `open` of the selected backend. -/
def openOn (b : Backend) (S : Storage σ Mode) (ini : IniFile Mode) (w : World σ Mode) :
    Bool × IniFile Mode × World σ Mode :=
  match b with
  | Backend.spiffs => openSPIFFS S ini w
  | Backend.sd => openSD S ini w

/-- Run a sequence of `open()` / `close()` calls on one accessor. -/
def runOps (b : Backend) (S : Storage σ Mode) :
    List Op → IniFile Mode × World σ Mode → IniFile Mode × World σ Mode
  | [], st => st
  | Op.callOpen :: rest, st => runOps b S rest (openOn b S st.1 st.2).2
  | Op.callClose :: rest, st => runOps b S rest (close S st.1 st.2)

/-- The effect of one storage call on the number of handles that are opened
and not yet closed. -/
def FsCall.delta : FsCall Mode → Int
  | FsCall.existsCall _ _ => 0
  | FsCall.openCall _ _ (some _) => 1
  | FsCall.openCall _ _ none => 0
  | FsCall.closeCall _ => -1

/-- The number of handles opened and not yet closed after a log of calls. -/
def outstanding (log : List (FsCall Mode)) : Int :=
  (log.map FsCall.delta).sum

/-- Whether a storage call is a call of the storage layer's `open`. -/
def FsCall.isOpenCall : FsCall Mode → Bool
  | FsCall.openCall _ _ _ => true
  | _ => false

/-- The calls by which `closeIfOpen` extends the log: the close of the handle
that was open, or nothing. -/
def closeCalls (ini : IniFile Mode) : List (FsCall Mode) :=
  match ini._file with
  | some h => [FsCall.closeCall h]
  | none => []

/-- The accessor as the constructor leaves it: not opened until `open()` is
called on it (`IniFile.h`, line 52). -/
def unopened (filename : List Char) (mode : Mode) (err : error_t) (cs : Bool) : IniFile Mode :=
  { _filename := filename, _mode := mode, _error := err, _file := none, _caseSensitive := cs }

/-! ## The resumable-scan state token (`IniFile.h`, lines 242-256) -/

/-- The anonymous enumeration of `class IniFileState`: the values the member
`getValueState` takes. -/
inductive Phase where
  | funcUnset
  | funcFindSection
  | funcFindKey
  deriving DecidableEq, Repr

end IniFile

/-- The data members of `class IniFileState`. The position is a `uint32_t` in
the header; it is a natural number here, which is exact for files below
4 GiB. -/
structure IniFileState where
  readLinePosition : Nat
  getValueState : IniFile.Phase
  deriving DecidableEq, Repr

namespace IniFile

open error_t Phase

/-- Modelled from the spec: the constructor `IniFileState::IniFileState`,
declared in the header and defined outside it. The spec resets the cursor to
`(0, Unset)` at the start of each new lookup. -/
def freshState : IniFileState :=
  { readLinePosition := 0, getValueState := funcUnset }

/-! ## Scan engine

The bodies of `readLine`, `isCommentChar`, `skipWhiteSpace`,
`removeTrailingWhiteSpace`, `findSection`, `findKey` and `getValue` are not in
the header; the definitions below follow section 4 of the specification. A
`char*` buffer is the text it holds before its terminator. -/

/-- Modelled from the spec: the open file as the storage collaborator serves
it to positioned reads, its bytes and whether repositioning the file pointer
to a byte offset is accepted. The header only names the type `File`. -/
structure FileData where
  content : List Char
  seekOk : Nat → Bool

/-- Modelled from the spec: `IniFile::isCommentChar`, declared in the header
only; true for `;` and `#`. -/
def isCommentChar (c : Char) : Bool :=
  c = ';' || c = '#'

/-- Modelled from the spec: the characters `skipWhiteSpace` skips, space and
tab. -/
def isBlankChar (c : Char) : Bool :=
  c = ' ' || c = '\t'

/-- Modelled from the spec: the characters `removeTrailingWhiteSpace` removes,
space, tab, CR and LF. -/
def isTrailingChar (c : Char) : Bool :=
  c = ' ' || c = '\t' || c = '\r' || c = '\n'

/-- Modelled from the spec: `IniFile::skipWhiteSpace`, declared in the header
only; the text past any leading space and tab characters. -/
def skipWhiteSpace (str : List Char) : List Char :=
  str.dropWhile isBlankChar

/-- Modelled from the spec: `IniFile::removeTrailingWhiteSpace`, declared in the
header only; the text with trailing space, tab, CR and LF characters cut off. -/
def removeTrailingWhiteSpace (str : List Char) : List Char :=
  (str.reverse.dropWhile isTrailingChar).reverse

/-- Modelled from the spec: both trims, as section 4.1 applies them to a line,
a section name, a key and a value. -/
def trim (str : List Char) : List Char :=
  removeTrailingWhiteSpace (skipWhiteSpace str)

/-- Modelled from the spec: the line scan of `IniFile::readLine`, whose body is
not in the header. From the bytes at the read position: the content of the
line (the bytes before the newline marker) and the number of bytes consumed,
the marker `\n` or `\r\n` included. -/
def scanLine : List Char → List Char × Nat
  | [] => ([], 0)
  | c :: rest =>
    if c = '\n' then ([], 1)
    else if c = '\r' ∧ rest.head? = some '\n' then ([], 2)
    else ((c :: (scanLine rest).1), (scanLine rest).2 + 1)

/-- Modelled from the spec: `IniFile::readLine`, declared in the header (line
138) and defined outside it. The result is the error code, the buffer and the
position afterwards. A rejected seek fails with `SeekError`; a position at or
beyond the end of the file fails with `EndOfFile`; a line whose content does
not fit in `len - 1` bytes fails with `BufferTooSmall`, the buffer truncated
and the position still advanced past the full line; otherwise the buffer
holds the content of the line and the position is past its newline marker. -/
def readLine (file : FileData) (buffer : List Char) (len : Nat) (pos : Nat) :
    error_t × List Char × Nat :=
  if !file.seekOk pos then (errorSeekError, buffer, pos)
  else if file.content.length ≤ pos then (errorEndOfFile, [], pos)
  else
    let r := scanLine (file.content.drop pos)
    if len - 1 < r.1.length then (errorBufferTooSmall, r.1.take (len - 1), pos + r.2)
    else (errorNoError, r.1, pos + r.2)

/-- Modelled from the spec: the transient `Line` of the data model, a line
read from the file and classified. -/
inductive Line where
  | comment
  | blank
  | sectionHeader (name : List Char)
  | keyValue (key value : List Char)
  deriving DecidableEq, Repr

/-- Modelled from the spec: the line classification of section 4.1, which the
controller applies after `readLine` and trimming. A line whose trimmed length
is zero is blank; one whose first non-whitespace character is a comment
character is a comment; one that starts with `[` and has a closing `]` is a
section header whose name is the trimmed text between the brackets; any other
line with an `=` is a key (the trimmed text before the first `=`) and a value
(the trimmed text after it); a line with no `=` is skipped as if blank. -/
def classify (raw : List Char) : Line :=
  match trim raw with
  | [] => Line.blank
  | c :: rest =>
    if isCommentChar c then Line.comment
    else if c = '[' ∧ ']' ∈ rest then
      Line.sectionHeader (trim (rest.takeWhile (fun d => d ≠ ']')))
    else if '=' ∈ c :: rest then
      Line.keyValue (trim ((c :: rest).takeWhile (fun d => d ≠ '=')))
        (trim (((c :: rest).dropWhile (fun d => d ≠ '=')).tail))
    else Line.blank

/-- Modelled from the spec: the active case rule for section and key names,
exact comparison in case-sensitive mode and comparison of the lower-cased
names otherwise. -/
def sameName (caseSensitive : Bool) (a b : List Char) : Bool :=
  if caseSensitive then a == b else a.map Char.toLower == b.map Char.toLower

/-- Modelled from the spec: what one step of `findSection`, `findKey` or
`getValue` reads and writes, the last-error field of the accessor, the
working buffer of the caller and the cursor. -/
structure ScanState where
  error : error_t
  buffer : List Char
  state : IniFileState
  deriving DecidableEq, Repr

/-- The scan state after a `readLine` that returned `r`: the buffer and the
read position are the ones `readLine` left, the phase is unchanged. -/
def ScanState.afterRead (s : ScanState) (r : error_t × List Char × Nat) (e : error_t) :
    ScanState :=
  { error := e, buffer := r.2.1,
    state := { readLinePosition := r.2.2, getValueState := s.state.getValueState } }

/-- Modelled from the spec: `IniFile::findSection`, declared in the header
(lines 148-149, "True means stop looking, false means not yet found") and
defined outside it. One line of work: a section header whose name matches
stops with `NoError`; an exhausted file stops with `SectionNotFound`; an
engine failure stops with its code; any other line is consumed and the search
continues, the last error untouched. -/
def findSection (file : FileData) (caseSensitive : Bool) (sect : List Char) (len : Nat)
    (s : ScanState) : Bool × ScanState :=
  let r := readLine file s.buffer len s.state.readLinePosition
  match r.1 with
  | errorNoError =>
    match classify r.2.1 with
    | Line.sectionHeader name =>
      if sameName caseSensitive name sect then (true, s.afterRead r errorNoError)
      else (false, s.afterRead r s.error)
    | _ => (false, s.afterRead r s.error)
  | errorEndOfFile => (true, s.afterRead r errorSectionNotFound)
  | e => (true, s.afterRead r e)

/-- Modelled from the spec: `IniFile::findKey`, declared in the header (lines
150-151) and defined outside it. One line of work, from a cursor just past a
matching section header: a key line whose key matches stops with `NoError`
and the value substring as key pointer; a section header stops with
`KeyNotFound`; an exhausted file stops with `KeyNotFound`; an engine failure
stops with its code; blank, comment and other lines are skipped. The result
is the stop flag, the key pointer and the scan state. -/
def findKey (file : FileData) (caseSensitive : Bool) (sect key : List Char) (len : Nat)
    (s : ScanState) : Bool × List Char × ScanState :=
  let r := readLine file s.buffer len s.state.readLinePosition
  match r.1 with
  | errorNoError =>
    match classify r.2.1 with
    | Line.keyValue k v =>
      if sameName caseSensitive k key then (true, v, s.afterRead r errorNoError)
      else (false, [], s.afterRead r s.error)
    | Line.sectionHeader _ => (true, [], s.afterRead r errorKeyNotFound)
    | _ => (false, [], s.afterRead r s.error)
  | errorEndOfFile => (true, [], s.afterRead r errorKeyNotFound)
  | e => (true, [], s.afterRead r e)

/-- The scan state with the phase of the cursor replaced. -/
def ScanState.withPhase (s : ScanState) (p : Phase) : ScanState :=
  { s with state := { s.state with getValueState := p } }

/-- Modelled from the spec: the resumable `IniFile::getValue`, declared in the
header (lines 84-85, "false means continue, true means stop") and defined
outside it. At most one line of engine work per call: a fresh cursor is set
to offset 0 and phase "seeking section"; in that phase one `findSection` step
runs, a match switches the phase to "seeking key", a stop with an error
concludes; in the phase "seeking key" one `findKey` step runs, a stop with an
error concludes, a match puts the value in the buffer and concludes. -/
def getValueResumable (file : FileData) (caseSensitive : Bool) (sect key : List Char)
    (len : Nat) (s : ScanState) : Bool × ScanState :=
  match s.state.getValueState with
  | funcUnset =>
    (false, { s with state := { readLinePosition := 0, getValueState := funcFindSection } })
  | funcFindSection =>
    let r := findSection file caseSensitive sect len s
    if r.1 then
      if r.2.error ≠ errorNoError then (true, r.2)
      else (false, r.2.withPhase funcFindKey)
    else (false, r.2)
  | funcFindKey =>
    let r := findKey file caseSensitive sect key len s
    if r.1 then
      if r.2.2.error ≠ errorNoError then (true, r.2.2)
      else (true, { r.2.2 with buffer := r.2.1 })
    else (false, r.2.2)

/-- The caller of the resumable form: it calls `getValue` again and again
until it returns true; `none` when `fuel` calls were not enough. -/
def driveResumable (file : FileData) (caseSensitive : Bool) (sect key : List Char)
    (len : Nat) : Nat → ScanState → Option ScanState
  | 0, _ => none
  | fuel + 1, s =>
    if (getValueResumable file caseSensitive sect key len s).1 then
      some (getValueResumable file caseSensitive sect key len s).2
    else
      driveResumable file caseSensitive sect key len fuel
        (getValueResumable file caseSensitive sect key len s).2

/-- Modelled from the spec: the first phase of the blocking `getValue`,
`findSection` to completion; `none` when `fuel` steps were not enough. -/
def findSectionAll (file : FileData) (caseSensitive : Bool) (sect : List Char) (len : Nat) :
    Nat → ScanState → Option ScanState
  | 0, _ => none
  | fuel + 1, s =>
    if (findSection file caseSensitive sect len s).1 then
      some (findSection file caseSensitive sect len s).2
    else
      findSectionAll file caseSensitive sect len fuel (findSection file caseSensitive sect len s).2

/-- Modelled from the spec: the second phase of the blocking `getValue`,
`findKey` to completion; `none` when `fuel` steps were not enough. -/
def findKeyAll (file : FileData) (caseSensitive : Bool) (sect key : List Char) (len : Nat) :
    Nat → ScanState → Option (List Char × ScanState)
  | 0, _ => none
  | fuel + 1, s =>
    if (findKey file caseSensitive sect key len s).1 then
      some (findKey file caseSensitive sect key len s).2
    else
      findKeyAll file caseSensitive sect key len fuel (findKey file caseSensitive sect key len s).2.2

/-- The outcome of a lookup: whether a value is present, the last error and
the working buffer. -/
structure Outcome where
  found : Bool
  error : error_t
  buffer : List Char
  deriving DecidableEq, Repr

/-- Modelled from the spec: the blocking `IniFile::getValue`, declared in the
header (lines 89-90, "Return = true means value is present in buffer") and
defined outside it. It composes `findSection` then `findKey` to completion
from the start of the file and extracts the matched value into the working
buffer; `error` and `buffer` are the last error and the buffer contents
before the call. `none` when `fuel` steps per phase were not enough. -/
def getValue (file : FileData) (caseSensitive : Bool) (sect key : List Char) (len : Nat)
    (fuel : Nat) (error : error_t) (buffer : List Char) : Option Outcome :=
  match findSectionAll file caseSensitive sect len fuel
      { error := error, buffer := buffer,
        state := { readLinePosition := 0, getValueState := funcFindSection } } with
  | none => none
  | some s1 =>
    if s1.error ≠ errorNoError then
      some { found := false, error := s1.error, buffer := s1.buffer }
    else
      match findKeyAll file caseSensitive sect key len fuel (s1.withPhase funcFindKey) with
      | none => none
      | some (v, s2) =>
        if s2.error ≠ errorNoError then
          some { found := false, error := s2.error, buffer := s2.buffer }
        else some { found := true, error := errorNoError, buffer := v }

/-- The outcome the caller of the resumable form sees once it has returned
true: found exactly when the last error is `NoError`. -/
def ScanState.outcome (s : ScanState) : Outcome :=
  { found := decide (s.error = errorNoError), error := s.error, buffer := s.buffer }

/-- An open file all of whose seeks are accepted. -/
def FileData.ofString (text : String) : FileData :=
  { content := text.toList, seekOk := fun _ => true }

/-! ## Reference semantics of a lookup, on the list of lines -/

/-- The lines of a file: the text is cut at every `\n`, and a `\r` right before
a `\n` belongs to the newline marker; text after the last newline is a last
line, and nothing after the last newline is no line at all. -/
def fileLines : List Char → List (List Char)
  | [] => []
  | c :: rest =>
    if c = '\n' then [] :: fileLines rest
    else if c = '\r' ∧ rest.head? = some '\n' then fileLines rest
    else
      match fileLines rest with
      | [] => [[c]]
      | l :: ls => (c :: l) :: ls

/-- Whether a line is a section header whose name matches `sect`. -/
def isSection (caseSensitive : Bool) (sect : List Char) (l : List Char) : Bool :=
  match classify l with
  | Line.sectionHeader name => sameName caseSensitive name sect
  | _ => false

/-- Whether a line is a section header at all. -/
def isHeader (l : List Char) : Bool :=
  match classify l with
  | Line.sectionHeader _ => true
  | _ => false

/-- The value of a line when the line is a `key = value` line whose key
matches `key`. -/
def keyValueOf (caseSensitive : Bool) (key : List Char) (l : List Char) : Option (List Char) :=
  match classify l with
  | Line.keyValue k v => if sameName caseSensitive k key then some v else none
  | _ => none

/-- The lines of the first section that matches `sect`: those after its header
and before the next section header or the end of the file; `none` when no
section header matches. -/
def sectionBlock (caseSensitive : Bool) (sect : List Char) (lines : List (List Char)) :
    Option (List (List Char)) :=
  match lines.dropWhile (fun l => !isSection caseSensitive sect l) with
  | [] => none
  | _ :: rest => some (rest.takeWhile (fun l => !isHeader l))

/-- The value of the first line of a block that is a `key = value` line whose
key matches. -/
def firstValue (caseSensitive : Bool) (key : List Char) (block : List (List Char)) :
    Option (List Char) :=
  block.findSome? (keyValueOf caseSensitive key)

/-- The reference result of the lookup of `(sect, key)` on the lines of a
file: the value of the first matching key line in the first matching
section. -/
def lookupLines (caseSensitive : Bool) (sect key : List Char) (lines : List (List Char)) :
    Option (List Char) :=
  match sectionBlock caseSensitive sect lines with
  | none => none
  | some block => firstValue caseSensitive key block

/-- The reference result of the lookup of `(sect, key)` in a file: the trimmed
text after the first `=` of the first matching key line in the first matching
section. -/
def lookup (caseSensitive : Bool) (sect key : List Char) (content : List Char) :
    Option (List Char) :=
  lookupLines caseSensitive sect key (fileLines content)

/-- Whether a line is skipped by the scan: a blank line, a comment, or a line
that is skipped as if blank. -/
def isSkipped (l : List Char) : Bool :=
  match classify l with
  | Line.blank => true
  | Line.comment => true
  | _ => false

/-- A well-formed file for a buffer of capacity `len`: every seek is accepted
and the content of every line fits in `len - 1` bytes. -/
def WellFormed (file : FileData) (len : Nat) : Prop :=
  (∀ pos, file.seekOk pos = true) ∧ ∀ l ∈ fileLines file.content, l.length ≤ len - 1

/-- The handle invariant: the log accounts for exactly the handle the accessor
holds, and at no earlier moment was the number of outstanding handles below
zero or above one. -/
def HandleInv (file : File) (log : List (FsCall Mode)) : Prop :=
  outstanding log = (if file.isSome then 1 else 0) ∧
    ∀ p, p <+: log → 0 ≤ outstanding p ∧ outstanding p ≤ 1

/-! ## Theorems: the accessor object and the storage layer -/

theorem closeIfOpen_fst (S : Storage σ Mode) (ini : IniFile Mode) (w : World σ Mode) :
    (closeIfOpen S ini w).1 = { ini with _file := none } := by
  unfold closeIfOpen
  cases h : ini._file with
  | none => cases ini; simp_all
  | some a => rfl

theorem closeIfOpen_log (S : Storage σ Mode) (ini : IniFile Mode) (w : World σ Mode) :
    (closeIfOpen S ini w).2.log = w.log ++ closeCalls ini := by
  unfold closeIfOpen closeCalls
  cases h : ini._file <;> simp

/-- The SD variant of `open` in closed form. -/
theorem openSD_eq (S : Storage σ Mode) (ini : IniFile Mode) (w : World σ Mode) :
    openSD S ini w =
      ((S.openFn (closeIfOpen S ini w).2.fs ini._filename ini._mode).1.isSome,
       { ini with
         _file := (S.openFn (closeIfOpen S ini w).2.fs ini._filename ini._mode).1,
         _error := if (S.openFn (closeIfOpen S ini w).2.fs ini._filename ini._mode).1.isSome
                   then errorNoError else errorFileNotFound },
       { fs := (S.openFn (closeIfOpen S ini w).2.fs ini._filename ini._mode).2,
         log := w.log ++ closeCalls ini ++
           [FsCall.openCall ini._filename ini._mode
             (S.openFn (closeIfOpen S ini w).2.fs ini._filename ini._mode).1] }) := by
  unfold openSD
  simp only [closeIfOpen_fst, closeIfOpen_log, isOpen]
  cases h : (S.openFn (closeIfOpen S ini w).2.fs ini._filename ini._mode).1 <;> simp [h]

/-- The SPIFFS variant of `open` in closed form, when the file exists. -/
theorem openSPIFFS_eq_of_exists (S : Storage σ Mode) (ini : IniFile Mode) (w : World σ Mode)
    (hex : (S.existsFn (closeIfOpen S ini w).2.fs ini._filename).1 = true) :
    openSPIFFS S ini w =
      ((S.openFn (S.existsFn (closeIfOpen S ini w).2.fs ini._filename).2
          ini._filename ini._mode).1.isSome,
       { ini with
         _file := (S.openFn (S.existsFn (closeIfOpen S ini w).2.fs ini._filename).2
            ini._filename ini._mode).1,
         _error := if (S.openFn (S.existsFn (closeIfOpen S ini w).2.fs ini._filename).2
            ini._filename ini._mode).1.isSome then errorNoError else errorFileNotFound },
       { fs := (S.openFn (S.existsFn (closeIfOpen S ini w).2.fs ini._filename).2
            ini._filename ini._mode).2,
         log := w.log ++ closeCalls ini ++
           [FsCall.existsCall ini._filename true,
            FsCall.openCall ini._filename ini._mode
              (S.openFn (S.existsFn (closeIfOpen S ini w).2.fs ini._filename).2
                ini._filename ini._mode).1] }) := by
  unfold openSPIFFS
  simp only [closeIfOpen_fst, closeIfOpen_log, hex]
  cases h : (S.openFn (S.existsFn (closeIfOpen S ini w).2.fs ini._filename).2
      ini._filename ini._mode).1 <;> simp [h]

/-- The SPIFFS variant of `open` in closed form, when the file does not exist. -/
theorem openSPIFFS_eq_of_not_exists (S : Storage σ Mode) (ini : IniFile Mode) (w : World σ Mode)
    (hex : (S.existsFn (closeIfOpen S ini w).2.fs ini._filename).1 = false) :
    openSPIFFS S ini w =
      (false, { ini with _file := none, _error := errorFileNotFound },
       { fs := (S.existsFn (closeIfOpen S ini w).2.fs ini._filename).2,
         log := w.log ++ closeCalls ini ++ [FsCall.existsCall ini._filename false] }) := by
  unfold openSPIFFS
  simp only [closeIfOpen_fst, closeIfOpen_log, hex]
  simp

theorem outstanding_append (l₁ l₂ : List (FsCall Mode)) :
    outstanding (l₁ ++ l₂) = outstanding l₁ + outstanding l₂ := by
  simp [outstanding]

theorem prefix_snoc_bound (l : List (FsCall Mode)) (c : FsCall Mode)
    (hl : ∀ p, p <+: l → 0 ≤ outstanding p ∧ outstanding p ≤ 1)
    (hc : 0 ≤ outstanding (l ++ [c]) ∧ outstanding (l ++ [c]) ≤ 1) :
    ∀ p, p <+: l ++ [c] → 0 ≤ outstanding p ∧ outstanding p ≤ 1 := by
  intro p hp
  rcases List.prefix_concat_iff.mp hp with h | h
  · subst h; exact hc
  · exact hl p h

theorem handleInv_closeIfOpen (S : Storage σ Mode) (ini : IniFile Mode) (w : World σ Mode)
    (h : HandleInv ini._file w.log) :
    HandleInv none (w.log ++ closeCalls ini) := by
  obtain ⟨h1, h2⟩ := h
  unfold closeCalls
  cases hf : ini._file with
  | none =>
    simp only [List.append_nil]
    exact ⟨by simpa [hf] using h1, h2⟩
  | some a =>
    simp only
    have hout : outstanding (w.log ++ [FsCall.closeCall a]) = 0 := by
      rw [outstanding_append, h1]
      simp [hf, outstanding, FsCall.delta]
    refine ⟨by simpa using hout, ?_⟩
    exact prefix_snoc_bound _ _ h2 (by rw [hout]; decide)

theorem handleInv_snoc_exists (f : File) (log : List (FsCall Mode)) (n : List Char)
    (a : Bool) (h : HandleInv f log) : HandleInv f (log ++ [FsCall.existsCall n a]) := by
  obtain ⟨h1, h2⟩ := h
  have hout : outstanding (log ++ [FsCall.existsCall n a]) = outstanding log := by
    rw [outstanding_append]; simp [outstanding, FsCall.delta]
  refine ⟨by rw [hout, h1], prefix_snoc_bound _ _ h2 ?_⟩
  rw [hout]
  exact h2 log (List.prefix_refl _)

theorem handleInv_snoc_open (log : List (FsCall Mode)) (n : List Char)
    (m : Mode) (o : Option Nat) (h : HandleInv none log) :
    HandleInv o (log ++ [FsCall.openCall n m o]) := by
  obtain ⟨h1, h2⟩ := h
  have hout : outstanding (log ++ [FsCall.openCall n m o]) = if o.isSome then 1 else 0 := by
    rw [outstanding_append, h1]
    cases o <;> simp [outstanding, FsCall.delta]
  refine ⟨hout, prefix_snoc_bound _ _ h2 ?_⟩
  rw [hout]
  cases o <;> simp

theorem handleInv_openOn (b : Backend) (S : Storage σ Mode) (ini : IniFile Mode)
    (w : World σ Mode) (h : HandleInv ini._file w.log) :
    HandleInv (openOn b S ini w).2.1._file (openOn b S ini w).2.2.log := by
  have hc := handleInv_closeIfOpen S ini w h
  cases b with
  | sd =>
    simp only [openOn]
    rw [openSD_eq]
    exact handleInv_snoc_open _ _ _ _ hc
  | spiffs =>
    simp only [openOn]
    cases hex : (S.existsFn (closeIfOpen S ini w).2.fs ini._filename).1 with
    | false =>
      rw [openSPIFFS_eq_of_not_exists S ini w hex]
      exact handleInv_snoc_exists _ _ ini._filename false hc
    | true =>
      rw [openSPIFFS_eq_of_exists S ini w hex]
      have h3 := handleInv_snoc_open _ ini._filename ini._mode
        (S.openFn (S.existsFn (closeIfOpen S ini w).2.fs ini._filename).2
          ini._filename ini._mode).1
        (handleInv_snoc_exists _ _ ini._filename true hc)
      simpa using h3

theorem handleInv_runOps (b : Backend) (S : Storage σ Mode) (ops : List Op) :
    ∀ st : IniFile Mode × World σ Mode, HandleInv st.1._file st.2.log →
      HandleInv (runOps b S ops st).1._file (runOps b S ops st).2.log := by
  induction ops with
  | nil => intro st h; exact h
  | cons op rest ih =>
    intro st h
    cases op with
    | callOpen => exact ih _ (handleInv_openOn b S st.1 st.2 h)
    | callClose =>
      refine ih _ ?_
      have hc := handleInv_closeIfOpen S st.1 st.2 h
      simpa [close, closeIfOpen_fst, closeIfOpen_log] using hc

/-- C8: `error_t` has exactly the nine members NoError, FileNotFound,
FileNotOpen, BufferTooSmall, SeekError, SectionNotFound, KeyNotFound,
EndOfFile, UnknownError; they are pairwise distinct, their values are 0 to 8
in this order, and `errorNoError` is 0. -/
theorem error_t_nine_codes :
    (∀ e : error_t, e ∈ [errorNoError, errorFileNotFound, errorFileNotOpen,
      errorBufferTooSmall, errorSeekError, errorSectionNotFound, errorKeyNotFound,
      errorEndOfFile, errorUnknownError]) ∧
    [errorNoError, errorFileNotFound, errorFileNotOpen, errorBufferTooSmall, errorSeekError,
      errorSectionNotFound, errorKeyNotFound, errorEndOfFile, errorUnknownError].Nodup ∧
    [errorNoError, errorFileNotFound, errorFileNotOpen, errorBufferTooSmall, errorSeekError,
      errorSectionNotFound, errorKeyNotFound, errorEndOfFile, errorUnknownError].map
        error_t.toNat = [0, 1, 2, 3, 4, 5, 6, 7, 8] ∧
    (∀ a b : error_t, a.toNat = b.toNat → a = b) ∧
    error_t.toNat errorNoError = 0 := by
  refine ⟨?_, by decide, by decide, ?_, by decide⟩
  · intro e; cases e <;> decide
  · intro a b; cases a <;> cases b <;> decide

/-- C7: after `clearError()` the value `getError()` returns is `errorNoError`;
`clearError()` leaves filename, mode, case-sensitivity flag and file handle as
they were, and `getError()` changes no field. -/
theorem clearError_frame (ini : IniFile Mode) :
    (getError (clearError ini)).1 = errorNoError ∧
    getFilename (clearError ini) = getFilename ini ∧
    getMode (clearError ini) = getMode ini ∧
    (clearError ini)._caseSensitive = ini._caseSensitive ∧
    (clearError ini)._file = ini._file ∧
    isOpen (clearError ini) = isOpen ini ∧
    (getError ini).2 = ini ∧
    (getError ini).1 = ini._error :=
  ⟨rfl, rfl, rfl, rfl, rfl, rfl, rfl, rfl⟩

/-- C5: in both backends `open()` returns true exactly when the file handle is
open afterwards, and the last error afterwards is `errorNoError` when it
returned true and `errorFileNotFound` when it returned false. -/
theorem open_reports_outcome (S : Storage σ Mode) (ini : IniFile Mode) (w : World σ Mode) :
    ((openSPIFFS S ini w).1 = isOpen (openSPIFFS S ini w).2.1 ∧
      (openSPIFFS S ini w).2.1._error =
        if (openSPIFFS S ini w).1 then errorNoError else errorFileNotFound) ∧
    ((openSD S ini w).1 = isOpen (openSD S ini w).2.1 ∧
      (openSD S ini w).2.1._error =
        if (openSD S ini w).1 then errorNoError else errorFileNotFound) := by
  constructor
  · cases hex : (S.existsFn (closeIfOpen S ini w).2.fs ini._filename).1 with
    | false => rw [openSPIFFS_eq_of_not_exists S ini w hex]; simp [isOpen]
    | true => rw [openSPIFFS_eq_of_exists S ini w hex]; simp [isOpen]
  · rw [openSD_eq]; simp [isOpen]

/-- C6: in both backends `open()` on an accessor whose handle `h` is open
first closes `h` and only then calls the storage layer again; and over any
sequence of `open()` and `close()` calls on an accessor that starts unopened,
the number of handles opened and not yet closed is never more than one (nor
below zero), and at the end it is one exactly when the accessor is open. -/
theorem open_closes_previous_handle (b : Backend) (S : Storage σ Mode) :
    (∀ (ini : IniFile Mode) (w : World σ Mode) (h : Nat), ini._file = some h →
      ∃ tail, (openOn b S ini w).2.2.log = w.log ++ FsCall.closeCall h :: tail ∧
        tail ≠ [] ∧ ∀ c ∈ tail, ∀ k, c ≠ FsCall.closeCall k) ∧
    (∀ (ops : List Op) (filename : List Char) (mode : Mode) (err : error_t) (cs : Bool)
      (fs : σ),
      (∀ p, p <+: (runOps b S ops (unopened filename mode err cs, ⟨fs, []⟩)).2.log →
        0 ≤ outstanding p ∧ outstanding p ≤ 1) ∧
      outstanding (runOps b S ops (unopened filename mode err cs, ⟨fs, []⟩)).2.log =
        if isOpen (runOps b S ops (unopened filename mode err cs, ⟨fs, []⟩)).1
        then 1 else 0) := by
  constructor
  · intro ini w h hf
    have hcc : closeCalls ini = [FsCall.closeCall h] := by simp [closeCalls, hf]
    cases b with
    | sd =>
      simp only [openOn]
      rw [openSD_eq, hcc]
      exact ⟨[FsCall.openCall ini._filename ini._mode
        (S.openFn (closeIfOpen S ini w).2.fs ini._filename ini._mode).1],
        by simp, by simp, by simp⟩
    | spiffs =>
      simp only [openOn]
      cases hex : (S.existsFn (closeIfOpen S ini w).2.fs ini._filename).1 with
      | false =>
        rw [openSPIFFS_eq_of_not_exists S ini w hex, hcc]
        exact ⟨[FsCall.existsCall ini._filename false], by simp, by simp, by simp⟩
      | true =>
        rw [openSPIFFS_eq_of_exists S ini w hex, hcc]
        exact ⟨[FsCall.existsCall ini._filename true,
          FsCall.openCall ini._filename ini._mode
            (S.openFn (S.existsFn (closeIfOpen S ini w).2.fs ini._filename).2
              ini._filename ini._mode).1], by simp, by simp, by simp⟩
  · intro ops filename mode err cs fs
    have h0 : HandleInv (unopened filename mode err cs, (⟨fs, []⟩ : World σ Mode)).1._file
        (unopened filename mode err cs, (⟨fs, []⟩ : World σ Mode)).2.log := by
      refine ⟨by simp [unopened, outstanding], ?_⟩
      intro p hp
      have : p = [] := List.prefix_nil.mp hp
      subst this
      simp [outstanding]
    have h := handleInv_runOps b S ops _ h0
    exact ⟨h.2, h.1⟩

/-- C9: in the SPIFFS backend, when `exists(filename)` answers false, `open()`
returns false with last error `errorFileNotFound` and the only storage calls
it makes are the close of a previously open handle and the existence check;
when it answers true, the storage `open` is called right after it, with the
filename and the mode of the accessor. -/
theorem openSPIFFS_checks_exists_first (S : Storage σ Mode) (ini : IniFile Mode)
    (w : World σ Mode) :
    ((S.existsFn (closeIfOpen S ini w).2.fs ini._filename).1 = false →
      (openSPIFFS S ini w).1 = false ∧
      (openSPIFFS S ini w).2.1._error = errorFileNotFound ∧
      (openSPIFFS S ini w).2.2.log =
        w.log ++ closeCalls ini ++ [FsCall.existsCall ini._filename false] ∧
      ∀ c ∈ closeCalls ini ++ [FsCall.existsCall ini._filename false],
        FsCall.isOpenCall c = false) ∧
    ((S.existsFn (closeIfOpen S ini w).2.fs ini._filename).1 = true →
      ∃ handle, (openSPIFFS S ini w).2.2.log =
        w.log ++ closeCalls ini ++
          [FsCall.existsCall ini._filename true,
           FsCall.openCall ini._filename ini._mode handle] ∧
        ∀ c ∈ closeCalls ini, FsCall.isOpenCall c = false) := by
  have hcc : ∀ c ∈ closeCalls ini, FsCall.isOpenCall c = false := by
    intro c hc
    unfold closeCalls at hc
    cases hf : ini._file with
    | none => simp [hf] at hc
    | some a => simp [hf] at hc; subst hc; rfl
  constructor
  · intro hex
    rw [openSPIFFS_eq_of_not_exists S ini w hex]
    refine ⟨rfl, rfl, rfl, ?_⟩
    intro c hc
    rcases List.mem_append.mp hc with h | h
    · exact hcc c h
    · simp at h; subst h; rfl
  · intro hex
    rw [openSPIFFS_eq_of_exists S ini w hex]
    exact ⟨_, rfl, hcc⟩

/-- C10: in both backends, when `open()` returns false `isOpen()` is false
afterwards (also when the handle was open before the call), and when it
returns true `isOpen()` is true afterwards; after `close()`, `isOpen()` is
false, a second `close()` changes nothing, and `close()` leaves the last
error as it was. -/
theorem open_close_isOpen (S : Storage σ Mode) (ini : IniFile Mode) (w : World σ Mode) :
    ((openSPIFFS S ini w).1 = false → isOpen (openSPIFFS S ini w).2.1 = false) ∧
    ((openSPIFFS S ini w).1 = true → isOpen (openSPIFFS S ini w).2.1 = true) ∧
    ((openSD S ini w).1 = false → isOpen (openSD S ini w).2.1 = false) ∧
    ((openSD S ini w).1 = true → isOpen (openSD S ini w).2.1 = true) ∧
    isOpen (close S ini w).1 = false ∧
    close S (close S ini w).1 (close S ini w).2 = close S ini w ∧
    (close S ini w).1._error = ini._error := by
  have hsp : (openSPIFFS S ini w).1 = isOpen (openSPIFFS S ini w).2.1 := by
    cases hex : (S.existsFn (closeIfOpen S ini w).2.fs ini._filename).1 with
    | false => rw [openSPIFFS_eq_of_not_exists S ini w hex]; simp [isOpen]
    | true => rw [openSPIFFS_eq_of_exists S ini w hex]; simp [isOpen]
  have hsd : (openSD S ini w).1 = isOpen (openSD S ini w).2.1 := by
    rw [openSD_eq]; simp [isOpen]
  refine ⟨fun h => by rw [← hsp]; exact h, fun h => by rw [← hsp]; exact h,
    fun h => by rw [← hsd]; exact h, fun h => by rw [← hsd]; exact h, ?_, ?_, ?_⟩
  · simp [close, closeIfOpen_fst, isOpen]
  · unfold close closeIfOpen
    cases hf : ini._file <;> simp [hf]
  · simp [close, closeIfOpen_fst]

/-! ## Theorems: the scan engine -/

theorem scanLine_cons (c : Char) (rest : List Char) :
    scanLine (c :: rest) =
      if c = '\n' then ([], 1)
      else if c = '\r' ∧ rest.head? = some '\n' then ([], 2)
      else ((c :: (scanLine rest).1), (scanLine rest).2 + 1) := by
  rw [scanLine]

theorem fileLines_cons (c : Char) (rest : List Char) :
    fileLines (c :: rest) =
      if c = '\n' then [] :: fileLines rest
      else if c = '\r' ∧ rest.head? = some '\n' then fileLines rest
      else
        match fileLines rest with
        | [] => [[c]]
        | l :: ls => (c :: l) :: ls := by
  rw [fileLines]

theorem scanLine_pos (c : Char) (rest : List Char) : 1 ≤ (scanLine (c :: rest)).2 := by
  rw [scanLine_cons]
  split_ifs <;> simp

theorem scanLine_le (s : List Char) : (scanLine s).2 ≤ s.length := by
  induction s with
  | nil => simp [scanLine]
  | cons c rest ih =>
    rw [scanLine_cons]
    split_ifs with h1 h2
    · simp
    · obtain ⟨_, h3⟩ := h2
      cases rest with
      | nil => simp at h3
      | cons d r => simp
    · simpa using ih

theorem fileLines_scanLine (c : Char) (rest : List Char) :
    fileLines (c :: rest) =
      (scanLine (c :: rest)).1 :: fileLines ((c :: rest).drop (scanLine (c :: rest)).2) := by
  induction rest generalizing c with
  | nil =>
    rw [scanLine_cons, fileLines_cons]
    split_ifs with h1 h2
    · simp [fileLines]
    · simp at h2
    · simp [fileLines, scanLine]
  | cons d r ih =>
    rw [scanLine_cons c, fileLines_cons c]
    split_ifs with h1 h2
    · simp
    · obtain ⟨_, h3⟩ := h2
      simp at h3
      subst h3
      simp [fileLines_cons]
    · rw [ih d]
      simp

theorem fileLines_drop (content : List Char) (pos : Nat) (h : pos < content.length) :
    fileLines (content.drop pos) =
      (scanLine (content.drop pos)).1 ::
        fileLines (content.drop (pos + (scanLine (content.drop pos)).2)) := by
  cases hd : content.drop pos with
  | nil =>
    have := List.drop_eq_nil_iff.mp hd
    omega
  | cons c rest =>
    rw [fileLines_scanLine c rest, ← hd, List.drop_drop]

theorem scanLine_drop_pos (content : List Char) (pos : Nat) (h : pos < content.length) :
    1 ≤ (scanLine (content.drop pos)).2 := by
  cases hd : content.drop pos with
  | nil =>
    have := List.drop_eq_nil_iff.mp hd
    omega
  | cons c rest => exact scanLine_pos c rest

theorem fileLines_eq_nil_iff (content : List Char) (pos : Nat) :
    fileLines (content.drop pos) = [] ↔ content.length ≤ pos := by
  constructor
  · intro h
    by_contra hlt
    rw [fileLines_drop content pos (by omega)] at h
    exact List.cons_ne_nil _ _ h
  · intro h
    rw [List.drop_eq_nil_iff.mpr h]
    rfl

theorem readLine_ok (file : FileData) (buffer : List Char) (len pos : Nat)
    (hseek : file.seekOk pos = true) (hpos : pos < file.content.length)
    (hfit : (scanLine (file.content.drop pos)).1.length ≤ len - 1) :
    readLine file buffer len pos =
      (errorNoError, (scanLine (file.content.drop pos)).1,
        pos + (scanLine (file.content.drop pos)).2) := by
  unfold readLine
  simp [hseek, Nat.not_le.mpr hpos, Nat.not_lt.mpr hfit]

theorem readLine_eof (file : FileData) (buffer : List Char) (len pos : Nat)
    (hseek : file.seekOk pos = true) (hpos : file.content.length ≤ pos) :
    readLine file buffer len pos = (errorEndOfFile, [], pos) := by
  unfold readLine
  simp [hseek, hpos]

theorem findSection_line (file : FileData) (cs : Bool) (sect : List Char) (len : Nat)
    (s : ScanState) (hseek : file.seekOk s.state.readLinePosition = true)
    (hpos : s.state.readLinePosition < file.content.length)
    (hfit : (scanLine (file.content.drop s.state.readLinePosition)).1.length ≤ len - 1) :
    findSection file cs sect len s =
      if isSection cs sect (scanLine (file.content.drop s.state.readLinePosition)).1 then
        (true, s.afterRead (readLine file s.buffer len s.state.readLinePosition) errorNoError)
      else
        (false, s.afterRead (readLine file s.buffer len s.state.readLinePosition) s.error) := by
  unfold findSection isSection
  rw [readLine_ok file s.buffer len _ hseek hpos hfit]
  simp only
  cases classify (scanLine (file.content.drop s.state.readLinePosition)).1 <;> simp

theorem findSection_eof (file : FileData) (cs : Bool) (sect : List Char) (len : Nat)
    (s : ScanState) (hseek : file.seekOk s.state.readLinePosition = true)
    (hpos : file.content.length ≤ s.state.readLinePosition) :
    findSection file cs sect len s =
      (true, s.afterRead (errorEndOfFile, [], s.state.readLinePosition)
        errorSectionNotFound) := by
  unfold findSection
  rw [readLine_eof file s.buffer len _ hseek hpos]

theorem findKey_line (file : FileData) (cs : Bool) (sect key : List Char) (len : Nat)
    (s : ScanState) (hseek : file.seekOk s.state.readLinePosition = true)
    (hpos : s.state.readLinePosition < file.content.length)
    (hfit : (scanLine (file.content.drop s.state.readLinePosition)).1.length ≤ len - 1) :
    findKey file cs sect key len s =
      match keyValueOf cs key (scanLine (file.content.drop s.state.readLinePosition)).1 with
      | some v =>
        (true, v, s.afterRead (readLine file s.buffer len s.state.readLinePosition) errorNoError)
      | none =>
        if isHeader (scanLine (file.content.drop s.state.readLinePosition)).1 then
          (true, [],
            s.afterRead (readLine file s.buffer len s.state.readLinePosition) errorKeyNotFound)
        else
          (false, [],
            s.afterRead (readLine file s.buffer len s.state.readLinePosition) s.error) := by
  unfold findKey keyValueOf isHeader
  rw [readLine_ok file s.buffer len _ hseek hpos hfit]
  simp only
  cases classify (scanLine (file.content.drop s.state.readLinePosition)).1 with
  | keyValue k v => by_cases h : sameName cs k key = true <;> simp [h]
  | _ => simp

theorem findKey_eof (file : FileData) (cs : Bool) (sect key : List Char) (len : Nat)
    (s : ScanState) (hseek : file.seekOk s.state.readLinePosition = true)
    (hpos : file.content.length ≤ s.state.readLinePosition) :
    findKey file cs sect key len s =
      (true, [], s.afterRead (errorEndOfFile, [], s.state.readLinePosition)
        errorKeyNotFound) := by
  unfold findKey
  rw [readLine_eof file s.buffer len _ hseek hpos]

/-- A line list read at a cursor starts with the line `readLine` returns
there, and continues with the lines at the position it leaves. -/
theorem lines_at_cursor (file : FileData) (pos : Nat) (l : List Char)
    (rest : List (List Char)) (h : fileLines (file.content.drop pos) = l :: rest) :
    pos < file.content.length ∧ (scanLine (file.content.drop pos)).1 = l ∧
      fileLines (file.content.drop (pos + (scanLine (file.content.drop pos)).2)) = rest := by
  have hpos : pos < file.content.length := by
    by_contra hge
    rw [(fileLines_eq_nil_iff file.content pos).mpr (by omega)] at h
    exact List.noConfusion h
  rw [fileLines_drop file.content pos hpos] at h
  injection h with h1 h2
  exact ⟨hpos, h1, h2⟩

theorem findSectionAll_succ (file : FileData) (cs : Bool) (sect : List Char) (len fuel : Nat)
    (s : ScanState) :
    findSectionAll file cs sect len (fuel + 1) s =
      if (findSection file cs sect len s).1 then some (findSection file cs sect len s).2
      else findSectionAll file cs sect len fuel (findSection file cs sect len s).2 := by
  rw [findSectionAll]

theorem findKeyAll_succ (file : FileData) (cs : Bool) (sect key : List Char) (len fuel : Nat)
    (s : ScanState) :
    findKeyAll file cs sect key len (fuel + 1) s =
      if (findKey file cs sect key len s).1 then some (findKey file cs sect key len s).2
      else findKeyAll file cs sect key len fuel (findKey file cs sect key len s).2.2 := by
  rw [findKeyAll]

theorem driveResumable_succ (file : FileData) (cs : Bool) (sect key : List Char)
    (len fuel : Nat) (s : ScanState) :
    driveResumable file cs sect key len (fuel + 1) s =
      if (getValueResumable file cs sect key len s).1 then
        some (getValueResumable file cs sect key len s).2
      else
        driveResumable file cs sect key len fuel
          (getValueResumable file cs sect key len s).2 := by
  rw [driveResumable]

/-- The first phase skips lines that fit and are not the wanted header. -/
theorem findSectionAll_skip (file : FileData) (cs : Bool) (sect : List Char) (len : Nat)
    (hseek : ∀ p, file.seekOk p = true) (pre : List (List Char)) :
    ∀ (s : ScanState) (rest : List (List Char)),
      fileLines (file.content.drop s.state.readLinePosition) = pre ++ rest →
      (∀ l ∈ pre, l.length ≤ len - 1 ∧ isSection cs sect l = false) →
      ∃ s' : ScanState, s'.error = s.error ∧
        s'.state.getValueState = s.state.getValueState ∧
        fileLines (file.content.drop s'.state.readLinePosition) = rest ∧
        ∀ k, findSectionAll file cs sect len (pre.length + k) s =
          findSectionAll file cs sect len k s' := by
  induction pre with
  | nil =>
    intro s rest h _
    exact ⟨s, rfl, rfl, by simpa using h, by intro k; simp⟩
  | cons l pre ih =>
    intro s rest h hpre
    obtain ⟨hpos, hl, hrest⟩ := lines_at_cursor file _ l (pre ++ rest) h
    have hl1 := hpre l (List.mem_cons_self _ _)
    have hfit : (scanLine (file.content.drop s.state.readLinePosition)).1.length ≤ len - 1 := by
      rw [hl]; exact hl1.1
    have hstep := findSection_line file cs sect len s (hseek _) hpos hfit
    rw [hl, hl1.2, readLine_ok file s.buffer len _ (hseek _) hpos hfit] at hstep
    simp only [Bool.false_eq_true, if_false] at hstep
    obtain ⟨s', he, hp, hlines, hk⟩ :=
      ih (s.afterRead (errorNoError, (scanLine (file.content.drop s.state.readLinePosition)).1,
            s.state.readLinePosition +
              (scanLine (file.content.drop s.state.readLinePosition)).2) s.error) rest
        (by simpa [ScanState.afterRead] using hrest)
        (fun l' hl' => hpre l' (List.mem_cons_of_mem _ hl'))
    refine ⟨s', by simpa [ScanState.afterRead] using he,
      by simpa [ScanState.afterRead] using hp, hlines, ?_⟩
    intro k
    have : (l :: pre).length + k = (pre.length + k) + 1 := by simp; omega
    rw [this, findSectionAll_succ, hstep]
    simpa using hk k

/-- The second phase skips lines that fit and are neither a section header
nor a line of the wanted key. -/
theorem findKeyAll_skip (file : FileData) (cs : Bool) (sect key : List Char) (len : Nat)
    (hseek : ∀ p, file.seekOk p = true) (pre : List (List Char)) :
    ∀ (s : ScanState) (rest : List (List Char)),
      fileLines (file.content.drop s.state.readLinePosition) = pre ++ rest →
      (∀ l ∈ pre, l.length ≤ len - 1 ∧ isHeader l = false ∧ keyValueOf cs key l = none) →
      ∃ s' : ScanState, s'.error = s.error ∧
        s'.state.getValueState = s.state.getValueState ∧
        fileLines (file.content.drop s'.state.readLinePosition) = rest ∧
        ∀ k, findKeyAll file cs sect key len (pre.length + k) s =
          findKeyAll file cs sect key len k s' := by
  induction pre with
  | nil =>
    intro s rest h _
    exact ⟨s, rfl, rfl, by simpa using h, by intro k; simp⟩
  | cons l pre ih =>
    intro s rest h hpre
    obtain ⟨hpos, hl, hrest⟩ := lines_at_cursor file _ l (pre ++ rest) h
    have hl1 := hpre l (List.mem_cons_self _ _)
    have hfit : (scanLine (file.content.drop s.state.readLinePosition)).1.length ≤ len - 1 := by
      rw [hl]; exact hl1.1
    have hstep := findKey_line file cs sect key len s (hseek _) hpos hfit
    rw [hl, hl1.2.1, hl1.2.2, readLine_ok file s.buffer len _ (hseek _) hpos hfit] at hstep
    simp only [Bool.false_eq_true, if_false] at hstep
    obtain ⟨s', he, hp, hlines, hk⟩ :=
      ih (s.afterRead (errorNoError, (scanLine (file.content.drop s.state.readLinePosition)).1,
            s.state.readLinePosition +
              (scanLine (file.content.drop s.state.readLinePosition)).2) s.error) rest
        (by simpa [ScanState.afterRead] using hrest)
        (fun l' hl' => hpre l' (List.mem_cons_of_mem _ hl'))
    refine ⟨s', by simpa [ScanState.afterRead] using he,
      by simpa [ScanState.afterRead] using hp, hlines, ?_⟩
    intro k
    have : (l :: pre).length + k = (pre.length + k) + 1 := by simp; omega
    rw [this, findKeyAll_succ, hstep]
    simpa using hk k

theorem fileLines_length_le (s : List Char) : (fileLines s).length ≤ s.length := by
  induction s with
  | nil => simp [fileLines]
  | cons c rest ih =>
    rw [fileLines_cons]
    split_ifs with h1 h2
    · simpa using ih
    · simp only [List.length_cons]; omega
    · cases hf : fileLines rest with
      | nil => simp
      | cons l ls =>
        rw [hf] at ih
        simp only [List.length_cons] at ih ⊢
        omega

theorem keyValueOf_of_isHeader (cs : Bool) (key l : List Char) (h : isHeader l = true) :
    keyValueOf cs key l = none := by
  unfold isHeader at h
  unfold keyValueOf
  cases hc : classify l <;> simp_all

/-- The first phase at the end of the file: `SectionNotFound`. -/
theorem findSectionAll_at_end (file : FileData) (cs : Bool) (sect : List Char) (len k : Nat)
    (hseek : ∀ p, file.seekOk p = true) (s : ScanState)
    (h : fileLines (file.content.drop s.state.readLinePosition) = []) :
    findSectionAll file cs sect len (k + 1) s =
      some (s.afterRead (errorEndOfFile, [], s.state.readLinePosition)
        errorSectionNotFound) := by
  have hpos := (fileLines_eq_nil_iff file.content _).mp h
  rw [findSectionAll_succ, findSection_eof file cs sect len s (hseek _) hpos]
  simp

/-- The first phase at the wanted header: it stops with `NoError`, the header
in the buffer and the cursor just past it. -/
theorem findSectionAll_at_header (file : FileData) (cs : Bool) (sect : List Char) (len k : Nat)
    (hseek : ∀ p, file.seekOk p = true) (s : ScanState) (hd : List Char)
    (post : List (List Char))
    (h : fileLines (file.content.drop s.state.readLinePosition) = hd :: post)
    (hfit : hd.length ≤ len - 1) (hsec : isSection cs sect hd = true) :
    ∃ s' : ScanState, findSectionAll file cs sect len (k + 1) s = some s' ∧
      s'.error = errorNoError ∧ s'.buffer = hd ∧
      s'.state.getValueState = s.state.getValueState ∧
      fileLines (file.content.drop s'.state.readLinePosition) = post := by
  obtain ⟨hpos, hl, hrest⟩ := lines_at_cursor file _ hd post h
  have hfit1 : (scanLine (file.content.drop s.state.readLinePosition)).1.length ≤ len - 1 := by
    rw [hl]; exact hfit
  have hstep := findSection_line file cs sect len s (hseek _) hpos hfit1
  rw [hl, hsec, readLine_ok file s.buffer len _ (hseek _) hpos hfit1] at hstep
  simp only [if_true] at hstep
  refine ⟨(findSection file cs sect len s).2, ?_, ?_, ?_, ?_, ?_⟩
  · rw [findSectionAll_succ, hstep]; simp
  · rw [hstep]; rfl
  · rw [hstep]; simpa [ScanState.afterRead] using hl
  · rw [hstep]; rfl
  · rw [hstep]; simpa [ScanState.afterRead] using hrest

/-- The second phase at the end of the file: `KeyNotFound`. -/
theorem findKeyAll_at_end (file : FileData) (cs : Bool) (sect key : List Char) (len k : Nat)
    (hseek : ∀ p, file.seekOk p = true) (s : ScanState)
    (h : fileLines (file.content.drop s.state.readLinePosition) = []) :
    findKeyAll file cs sect key len (k + 1) s =
      some ([], s.afterRead (errorEndOfFile, [], s.state.readLinePosition)
        errorKeyNotFound) := by
  have hpos := (fileLines_eq_nil_iff file.content _).mp h
  rw [findKeyAll_succ, findKey_eof file cs sect key len s (hseek _) hpos]
  simp

/-- The second phase at a section header: it stops with `KeyNotFound`, the
cursor just past that header. -/
theorem findKeyAll_at_header (file : FileData) (cs : Bool) (sect key : List Char) (len k : Nat)
    (hseek : ∀ p, file.seekOk p = true) (s : ScanState) (hd : List Char)
    (post : List (List Char))
    (h : fileLines (file.content.drop s.state.readLinePosition) = hd :: post)
    (hfit : hd.length ≤ len - 1) (hhdr : isHeader hd = true) :
    ∃ s' : ScanState, findKeyAll file cs sect key len (k + 1) s = some ([], s') ∧
      s'.error = errorKeyNotFound ∧ s'.buffer = hd ∧
      fileLines (file.content.drop s'.state.readLinePosition) = post := by
  obtain ⟨hpos, hl, hrest⟩ := lines_at_cursor file _ hd post h
  have hfit1 : (scanLine (file.content.drop s.state.readLinePosition)).1.length ≤ len - 1 := by
    rw [hl]; exact hfit
  have hstep := findKey_line file cs sect key len s (hseek _) hpos hfit1
  rw [hl, keyValueOf_of_isHeader cs key hd hhdr, hhdr,
    readLine_ok file s.buffer len _ (hseek _) hpos hfit1] at hstep
  simp only [if_true] at hstep
  refine ⟨(findKey file cs sect key len s).2.2, ?_, ?_, ?_, ?_⟩
  · rw [findKeyAll_succ, hstep]; simp
  · rw [hstep]; rfl
  · rw [hstep]; simpa [ScanState.afterRead] using hl
  · rw [hstep]; simpa [ScanState.afterRead] using hrest

/-- The second phase at a line of the wanted key: it stops with `NoError` and
the value of that line as key pointer. -/
theorem findKeyAll_at_key (file : FileData) (cs : Bool) (sect key : List Char) (len k : Nat)
    (hseek : ∀ p, file.seekOk p = true) (s : ScanState) (hd v : List Char)
    (post : List (List Char))
    (h : fileLines (file.content.drop s.state.readLinePosition) = hd :: post)
    (hfit : hd.length ≤ len - 1) (hkey : keyValueOf cs key hd = some v) :
    ∃ s' : ScanState, findKeyAll file cs sect key len (k + 1) s = some (v, s') ∧
      s'.error = errorNoError ∧ s'.buffer = hd := by
  obtain ⟨hpos, hl, hrest⟩ := lines_at_cursor file _ hd post h
  have hfit1 : (scanLine (file.content.drop s.state.readLinePosition)).1.length ≤ len - 1 := by
    rw [hl]; exact hfit
  have hstep := findKey_line file cs sect key len s (hseek _) hpos hfit1
  rw [hl, hkey, readLine_ok file s.buffer len _ (hseek _) hpos hfit1] at hstep
  simp only at hstep
  refine ⟨(findKey file cs sect key len s).2.2, ?_, ?_, ?_⟩
  · rw [findKeyAll_succ, hstep]; simp
  · rw [hstep]; rfl
  · rw [hstep]; simpa [ScanState.afterRead] using hl

/-- The reference value of a block is decided at its first line that is a
section header or a line of the wanted key. -/
theorem firstValue_takeWhile (cs : Bool) (key : List Char) (post : List (List Char)) :
    firstValue cs key (post.takeWhile (fun l => !isHeader l)) =
      match post.dropWhile (fun l => !isHeader l && (keyValueOf cs key l).isNone) with
      | [] => none
      | h :: _ => keyValueOf cs key h := by
  induction post with
  | nil => rfl
  | cons l post ih =>
    by_cases hh : isHeader l = true
    · simp [firstValue, List.takeWhile, List.dropWhile, hh, keyValueOf_of_isHeader cs key l hh]
    · have hh' : isHeader l = false := by simpa using hh
      cases hk : keyValueOf cs key l with
      | some v => simp [firstValue, List.takeWhile, List.dropWhile, hh', hk]
      | none =>
        simp only [firstValue] at ih
        simp [firstValue, List.takeWhile, List.dropWhile, hh', hk, ih]

theorem dropWhile_split {α : Type} (p : α → Bool) (l : List α) :
    l = l.takeWhile p ++ l.dropWhile p ∧ (∀ x ∈ l.takeWhile p, p x = true) ∧
      ∀ h post, l.dropWhile p = h :: post → p h = false := by
  induction l with
  | nil => simp
  | cons a l ih =>
    by_cases ha : p a = true
    · simp only [List.takeWhile_cons, List.dropWhile_cons, ha, if_true]
      refine ⟨by simp, ?_, ih.2.2⟩
      intro x hx
      rcases List.mem_cons.mp hx with h | h
      · rw [h]; exact ha
      · exact ih.2.1 x h
    · simp only [List.takeWhile_cons, List.dropWhile_cons, ha]
      refine ⟨by simp, by simp, ?_⟩
      intro h post hh
      simp at hh
      rw [← hh.1]
      simp [ha]

/-- The first phase on a well-formed file, in terms of the lines at the
cursor: it ends at the first header that matches, or with `SectionNotFound`. -/
theorem findSectionAll_lines (file : FileData) (cs : Bool) (sect : List Char) (len fuel : Nat)
    (hseek : ∀ p, file.seekOk p = true) (s : ScanState)
    (hfit : ∀ l ∈ fileLines (file.content.drop s.state.readLinePosition), l.length ≤ len - 1)
    (hfuel : (fileLines (file.content.drop s.state.readLinePosition)).length < fuel) :
    ∃ s' : ScanState, findSectionAll file cs sect len fuel s = some s' ∧
      s'.state.getValueState = s.state.getValueState ∧
      (((fileLines (file.content.drop s.state.readLinePosition)).dropWhile
          (fun l => !isSection cs sect l) = [] ∧ s'.error = errorSectionNotFound) ∨
       (∃ hd post, (fileLines (file.content.drop s.state.readLinePosition)).dropWhile
          (fun l => !isSection cs sect l) = hd :: post ∧ s'.error = errorNoError ∧
          s'.buffer = hd ∧
          fileLines (file.content.drop s'.state.readLinePosition) = post)) := by
  obtain ⟨hsplit, htake, hdrop⟩ := dropWhile_split (fun l => !isSection cs sect l)
    (fileLines (file.content.drop s.state.readLinePosition))
  have hlen := congrArg List.length hsplit
  rw [List.length_append] at hlen
  have hpre : ∀ l ∈ (fileLines (file.content.drop s.state.readLinePosition)).takeWhile
      (fun l => !isSection cs sect l), l.length ≤ len - 1 ∧ isSection cs sect l = false := by
    intro l hl
    refine ⟨hfit l ?_, by simpa using htake l hl⟩
    rw [hsplit]
    exact List.mem_append_left _ hl
  obtain ⟨s1, he1, hp1, hlines1, hk1⟩ := findSectionAll_skip file cs sect len hseek _ s _
    hsplit hpre
  obtain ⟨k, hk⟩ : ∃ k, fuel = ((fileLines (file.content.drop s.state.readLinePosition)).takeWhile
      (fun l => !isSection cs sect l)).length + (k + 1) := ⟨fuel -
      ((fileLines (file.content.drop s.state.readLinePosition)).takeWhile
        (fun l => !isSection cs sect l)).length - 1, by omega⟩
  cases hd : (fileLines (file.content.drop s.state.readLinePosition)).dropWhile
      (fun l => !isSection cs sect l) with
  | nil =>
    rw [hd] at hlines1
    refine ⟨s1.afterRead (errorEndOfFile, [], s1.state.readLinePosition) errorSectionNotFound,
      ?_, ?_, Or.inl ⟨rfl, rfl⟩⟩
    · rw [hk, hk1 (k + 1), findSectionAll_at_end file cs sect len k hseek s1 hlines1]
    · simpa [ScanState.afterRead] using hp1
  | cons h post =>
    rw [hd] at hlines1
    have hh : isSection cs sect h = true := by simpa using hdrop h post hd
    have hfh : h.length ≤ len - 1 := by
      apply hfit
      rw [hsplit, hd]
      simp
    obtain ⟨s2, hrun, he2, hb2, hp2, hl2⟩ :=
      findSectionAll_at_header file cs sect len k hseek s1 h post hlines1 hfh hh
    refine ⟨s2, ?_, by rw [hp2, hp1], Or.inr ⟨h, post, rfl, he2, hb2, hl2⟩⟩
    rw [hk, hk1 (k + 1), hrun]

/-- The second phase on a well-formed file, in terms of the lines at the
cursor: it ends at the first line that is a section header or a line of the
wanted key, or at the end of the file. -/
theorem findKeyAll_lines (file : FileData) (cs : Bool) (sect key : List Char) (len fuel : Nat)
    (hseek : ∀ p, file.seekOk p = true) (s : ScanState)
    (hfit : ∀ l ∈ fileLines (file.content.drop s.state.readLinePosition), l.length ≤ len - 1)
    (hfuel : (fileLines (file.content.drop s.state.readLinePosition)).length < fuel) :
    ∃ (v : List Char) (s' : ScanState), findKeyAll file cs sect key len fuel s = some (v, s') ∧
      ((firstValue cs key ((fileLines (file.content.drop s.state.readLinePosition)).takeWhile
          (fun l => !isHeader l)) = none ∧ s'.error = errorKeyNotFound) ∨
       (firstValue cs key ((fileLines (file.content.drop s.state.readLinePosition)).takeWhile
          (fun l => !isHeader l)) = some v ∧ s'.error = errorNoError)) := by
  rw [firstValue_takeWhile]
  obtain ⟨hsplit, htake, hdrop⟩ :=
    dropWhile_split (fun l => !isHeader l && (keyValueOf cs key l).isNone)
      (fileLines (file.content.drop s.state.readLinePosition))
  have hlen := congrArg List.length hsplit
  rw [List.length_append] at hlen
  have hpre : ∀ l ∈ (fileLines (file.content.drop s.state.readLinePosition)).takeWhile
      (fun l => !isHeader l && (keyValueOf cs key l).isNone),
      l.length ≤ len - 1 ∧ isHeader l = false ∧ keyValueOf cs key l = none := by
    intro l hl
    have := htake l hl
    simp only [Bool.and_eq_true, Bool.not_eq_true', Option.isNone_iff_eq_none] at this
    refine ⟨hfit l ?_, this.1, this.2⟩
    rw [hsplit]
    exact List.mem_append_left _ hl
  obtain ⟨s1, he1, hp1, hlines1, hk1⟩ := findKeyAll_skip file cs sect key len hseek _ s _
    hsplit hpre
  obtain ⟨k, hk⟩ : ∃ k, fuel = ((fileLines (file.content.drop s.state.readLinePosition)).takeWhile
      (fun l => !isHeader l && (keyValueOf cs key l).isNone)).length + (k + 1) := ⟨fuel -
      ((fileLines (file.content.drop s.state.readLinePosition)).takeWhile
        (fun l => !isHeader l && (keyValueOf cs key l).isNone)).length - 1, by omega⟩
  cases hd : (fileLines (file.content.drop s.state.readLinePosition)).dropWhile
      (fun l => !isHeader l && (keyValueOf cs key l).isNone) with
  | nil =>
    rw [hd] at hlines1
    refine ⟨[], s1.afterRead (errorEndOfFile, [], s1.state.readLinePosition) errorKeyNotFound,
      ?_, Or.inl ⟨rfl, rfl⟩⟩
    rw [hk, hk1 (k + 1), findKeyAll_at_end file cs sect key len k hseek s1 hlines1]
  | cons h post =>
    rw [hd] at hlines1
    have hfh : h.length ≤ len - 1 := by
      apply hfit
      rw [hsplit, hd]
      simp
    have hh := hdrop h post hd
    cases hkv : keyValueOf cs key h with
    | some v =>
      obtain ⟨s2, hrun, he2, _⟩ :=
        findKeyAll_at_key file cs sect key len k hseek s1 h v post hlines1 hfh hkv
      exact ⟨v, s2, by rw [hk, hk1 (k + 1), hrun], Or.inr ⟨hkv, he2⟩⟩
    | none =>
      have hhdr : isHeader h = true := by simpa [hkv] using hh
      obtain ⟨s2, hrun, he2, _⟩ :=
        findKeyAll_at_header file cs sect key len k hseek s1 h post hlines1 hfh hhdr
      exact ⟨[], s2, by rw [hk, hk1 (k + 1), hrun], Or.inl ⟨hkv, he2⟩⟩

theorem firstValue_filter_skipped (cs : Bool) (key : List Char) (ls : List (List Char)) :
    firstValue cs key ((ls.filter (fun l => !isSkipped l)).takeWhile (fun l => !isHeader l)) =
      firstValue cs key (ls.takeWhile (fun l => !isHeader l)) := by
  induction ls with
  | nil => rfl
  | cons l ls ih =>
    unfold firstValue at ih ⊢
    by_cases hs : isSkipped l = true
    · have hh : isHeader l = false := by
        unfold isSkipped at hs; unfold isHeader
        cases hc : classify l <;> simp_all
      have hk : keyValueOf cs key l = none := by
        unfold isSkipped at hs; unfold keyValueOf
        cases hc : classify l <;> simp_all
      simp [List.filter, hs, List.takeWhile, hh, hk, ih]
    · have hs' : isSkipped l = false := by simpa using hs
      by_cases hh : isHeader l = true
      · simp [List.filter, hs', List.takeWhile, hh]
      · have hh' : isHeader l = false := by simpa using hh
        cases hk : keyValueOf cs key l with
        | some v => simp [List.filter, hs', List.takeWhile, hh', hk]
        | none => simp [List.filter, hs', List.takeWhile, hh', hk, ih]

/-- The reference lookup does not depend on the skipped lines of the file. -/
theorem lookupLines_filter_skipped (cs : Bool) (sect key : List Char)
    (ls : List (List Char)) :
    lookupLines cs sect key (ls.filter (fun l => !isSkipped l)) = lookupLines cs sect key ls := by
  induction ls with
  | nil => rfl
  | cons l ls ih =>
    unfold lookupLines sectionBlock at ih ⊢
    by_cases hs : isSkipped l = true
    · have hsec : isSection cs sect l = false := by
        unfold isSkipped at hs; unfold isSection
        cases hc : classify l <;> simp_all
      simpa [List.filter, hs, List.dropWhile, hsec] using ih
    · have hs' : isSkipped l = false := by simpa using hs
      by_cases hsec : isSection cs sect l = true
      · simpa [List.filter, hs', List.dropWhile, hsec] using
          firstValue_filter_skipped cs key ls
      · have hsec' : isSection cs sect l = false := by simpa using hsec
        simpa [List.filter, hs', List.dropWhile, hsec'] using ih

/-- C1: on a well-formed file the blocking `getValue` returns true exactly when
the first section header that matches `sect` is followed, before the next
section header or the end of the file, by a key line whose key matches `key`;
the buffer then holds the trimmed text after the first `=` of the first such
line, and the last error is `errorNoError`; otherwise it returns false with
an error code. The reference result does not depend on the blank and comment
lines of the file. -/
theorem getValue_blocking_correct (file : FileData) (cs : Bool) (sect key : List Char)
    (len fuel : Nat) (err : error_t) (buf : List Char)
    (hwf : WellFormed file len) (hfuel : file.content.length < fuel) :
    (∀ v, lookup cs sect key file.content = some v →
      getValue file cs sect key len fuel err buf =
        some { found := true, error := errorNoError, buffer := v }) ∧
    (lookup cs sect key file.content = none →
      ∃ e b, e ≠ errorNoError ∧
        getValue file cs sect key len fuel err buf =
          some { found := false, error := e, buffer := b }) ∧
    lookupLines cs sect key ((fileLines file.content).filter (fun l => !isSkipped l)) =
      lookup cs sect key file.content := by
  obtain ⟨hseek, hfit⟩ := hwf
  have hlen := fileLines_length_le file.content
  obtain ⟨s1, hrun1, hp1, hcase1⟩ := findSectionAll_lines file cs sect len fuel hseek
    { error := err, buffer := buf,
      state := { readLinePosition := 0, getValueState := funcFindSection } }
    (by simpa using hfit) (by simp only [List.drop_zero]; omega)
  simp only [List.drop_zero] at hcase1
  have hsplit := (dropWhile_split (fun l => !isSection cs sect l) (fileLines file.content)).1
  refine ⟨?_, ?_, lookupLines_filter_skipped cs sect key _⟩
  all_goals
    unfold lookup lookupLines sectionBlock getValue
    rw [hrun1]
    rcases hcase1 with ⟨hnil, he1⟩ | ⟨hd, post, hcons, he1, _, hl1⟩
  · intro v hv
    rw [hnil] at hv
    simp at hv
  · intro v hv
    rw [hcons] at hv
    simp only at hv
    have hmem : ∀ l ∈ post, l ∈ fileLines file.content := by
      intro l hl
      rw [hsplit, hcons]
      simp [hl]
    have hpl : post.length ≤ (fileLines file.content).length := by
      have := congrArg List.length hsplit
      rw [hcons] at this
      simp at this
      omega
    obtain ⟨v2, s2, hrun2, hcase2⟩ := findKeyAll_lines file cs sect key len fuel hseek
      (s1.withPhase funcFindKey)
      (by
        intro l hl
        simp only [ScanState.withPhase] at hl
        rw [hl1] at hl
        exact hfit l (hmem l hl))
      (by simp only [ScanState.withPhase]; rw [hl1]; omega)
    simp only [ScanState.withPhase] at hcase2
    rw [hl1, hv] at hcase2
    rcases hcase2 with ⟨h, _⟩ | ⟨h, he2⟩
    · exact absurd h (by simp)
    · injection h with h
      subst h
      simp [he1, hrun2, he2]
  · intro _
    exact ⟨errorSectionNotFound, s1.buffer, by decide, by simp [he1]⟩
  · intro hv
    rw [hcons] at hv
    simp only at hv
    have hmem : ∀ l ∈ post, l ∈ fileLines file.content := by
      intro l hl
      rw [hsplit, hcons]
      simp [hl]
    have hpl : post.length ≤ (fileLines file.content).length := by
      have := congrArg List.length hsplit
      rw [hcons] at this
      simp at this
      omega
    obtain ⟨v2, s2, hrun2, hcase2⟩ := findKeyAll_lines file cs sect key len fuel hseek
      (s1.withPhase funcFindKey)
      (by
        intro l hl
        simp only [ScanState.withPhase] at hl
        rw [hl1] at hl
        exact hfit l (hmem l hl))
      (by simp only [ScanState.withPhase]; rw [hl1]; omega)
    simp only [ScanState.withPhase] at hcase2
    rw [hl1, hv] at hcase2
    rcases hcase2 with ⟨_, he2⟩ | ⟨h, _⟩
    · exact ⟨errorKeyNotFound, s2.buffer, by decide, by simp [he1, hrun2, he2]⟩
    · exact absurd h (by simp)

/-- The line scan on a line that ends with a newline marker: the content of
the line and the number of bytes up to the start of the next line. -/
theorem scanLine_terminated (body nl rest : List Char) (hbody : '\n' ∉ body)
    (hnl : (nl = ['\n'] ∧ body.getLast? ≠ some '\r') ∨ nl = ['\r', '\n']) :
    scanLine (body ++ nl ++ rest) = (body, body.length + nl.length) := by
  induction body with
  | nil =>
    rcases hnl with ⟨h, _⟩ | h
    · subst h; simp [scanLine_cons]
    · subst h; simp [scanLine_cons]
  | cons c b ih =>
    have hc : c ≠ '\n' := fun h => hbody (by simp [h])
    have hb : '\n' ∉ b := fun h => hbody (List.mem_cons_of_mem _ h)
    have hnext : ¬ (c = '\r' ∧ (b ++ nl ++ rest).head? = some '\n') := by
      rintro ⟨h1, h2⟩
      cases b with
      | nil =>
        rcases hnl with ⟨_, h⟩ | h
        · exact h (by simp [h1])
        · subst h; simp at h2
      | cons d b' =>
        simp at h2
        exact hb (by simp [h2])
    have hnl' : (nl = ['\n'] ∧ b.getLast? ≠ some '\r') ∨ nl = ['\r', '\n'] := by
      rcases hnl with ⟨h1, h2⟩ | h
      · left
        refine ⟨h1, ?_⟩
        cases b with
        | nil => simp
        | cons d b' => simpa [List.getLast?_cons_cons] using h2
      · right; exact h
    have := ih hb hnl'
    simp only [List.cons_append, List.append_assoc] at this ⊢
    rw [scanLine_cons, if_neg hc, if_neg (by simpa using hnext), this]
    simp
    omega

/-- C4: when the line at the read position has more than `len - 1` bytes of
content before its newline marker (`\n` or `\r\n`), `readLine` returns
`errorBufferTooSmall` and leaves the position at the start of the next line,
just past the marker. -/
theorem readLine_too_long_advances (file : FileData) (buffer : List Char) (len pos : Nat)
    (pre body nl rest : List Char)
    (hseek : file.seekOk pos = true)
    (hcontent : file.content = pre ++ body ++ nl ++ rest)
    (hpos : pos = pre.length)
    (hbody : '\n' ∉ body)
    (hnl : (nl = ['\n'] ∧ body.getLast? ≠ some '\r') ∨ nl = ['\r', '\n'])
    (hlong : len - 1 < body.length) :
    (readLine file buffer len pos).1 = errorBufferTooSmall ∧
      (readLine file buffer len pos).2.2 = (pre ++ body ++ nl).length ∧
      file.content.drop (readLine file buffer len pos).2.2 = rest := by
  have hdrop : file.content.drop pos = body ++ nl ++ rest := by
    rw [hcontent, hpos]
    simp [List.append_assoc]
  have hscan := scanLine_terminated body nl rest hbody hnl
  have hlt : ¬ file.content.length ≤ pos := by
    rw [hcontent, hpos]
    simp only [List.length_append]
    have : 0 < body.length := by omega
    omega
  have hrl : readLine file buffer len pos =
      (errorBufferTooSmall, body.take (len - 1), pos + (body.length + nl.length)) := by
    unfold readLine
    simp only [hseek, Bool.not_true, Bool.false_eq_true, if_false, hlt, hdrop, hscan, hlong,
      if_true]
  have hlen : pos + (body.length + nl.length) = (pre ++ body ++ nl).length := by
    rw [hpos]; simp only [List.length_append]; omega
  rw [hrl]
  refine ⟨rfl, hlen, ?_⟩
  simp only [hlen, hcontent]
  rw [List.drop_left]

/-- The witness of C4: a line of eight bytes ended by `\r\n`, read into a
buffer of capacity four. -/
theorem readLine_too_long_advances_witness :
    (readLine (FileData.ofString "k=1\nabcdefgh\r\nxy") [] 4 4).1 = errorBufferTooSmall ∧
      (readLine (FileData.ofString "k=1\nabcdefgh\r\nxy") [] 4 4).2.2 =
        ("k=1\n".toList ++ "abcdefgh".toList ++ ['\r', '\n']).length ∧
      (FileData.ofString "k=1\nabcdefgh\r\nxy").content.drop
        (readLine (FileData.ofString "k=1\nabcdefgh\r\nxy") [] 4 4).2.2 = "xy".toList :=
  readLine_too_long_advances (FileData.ofString "k=1\nabcdefgh\r\nxy") [] 4 4
    "k=1\n".toList "abcdefgh".toList ['\r', '\n'] "xy".toList rfl (by decide) (by decide)
    (by decide) (Or.inr rfl) (by decide)

/-- The witness of C1: the example file of the specification, section `wifi`,
key `ssid`, in a buffer of capacity 32. -/
theorem getValue_blocking_correct_witness :
    WellFormed (FileData.ofString "[wifi]\nssid = home\npass=secret\n\n[net]\nip=10.0.0.5\n") 32 ∧
    lookup false "wifi".toList "ssid".toList
      (FileData.ofString "[wifi]\nssid = home\npass=secret\n\n[net]\nip=10.0.0.5\n").content =
      some "home".toList ∧
    getValue (FileData.ofString "[wifi]\nssid = home\npass=secret\n\n[net]\nip=10.0.0.5\n")
      false "wifi".toList "ssid".toList 32 64 errorUnknownError [] =
      some { found := true, error := errorNoError, buffer := "home".toList } :=
  ⟨⟨fun _ => rfl, by decide⟩, by decide,
    (getValue_blocking_correct
      (FileData.ofString "[wifi]\nssid = home\npass=secret\n\n[net]\nip=10.0.0.5\n")
      false "wifi".toList "ssid".toList 32 64 errorUnknownError []
      ⟨fun _ => rfl, by decide⟩ (by decide)).1 "home".toList (by decide)⟩

/-! ## Theorems: the resumable form against the blocking form -/

theorem readLine_noError (file : FileData) (buffer : List Char) (len pos : Nat)
    (h : (readLine file buffer len pos).1 = errorNoError) :
    pos < file.content.length ∧ pos < (readLine file buffer len pos).2.2 := by
  unfold readLine at h ⊢
  by_cases h1 : file.seekOk pos = true
  · by_cases h2 : file.content.length ≤ pos
    · simp [h1, h2] at h
    · by_cases h3 : len - 1 < (scanLine (file.content.drop pos)).1.length
      · simp [h1, h2, h3] at h
      · have hlt : pos < file.content.length := by omega
        have := scanLine_drop_pos file.content pos hlt
        simp only [h1, h2, h3, Bool.not_true, Bool.false_eq_true, if_false]
        exact ⟨hlt, by omega⟩
  · simp [h1] at h

theorem findSection_continue (file : FileData) (cs : Bool) (sect : List Char) (len : Nat)
    (s : ScanState) (h : (findSection file cs sect len s).1 = false) :
    s.state.readLinePosition < file.content.length ∧
      s.state.readLinePosition < (findSection file cs sect len s).2.state.readLinePosition := by
  unfold findSection at h ⊢
  cases hr : (readLine file s.buffer len s.state.readLinePosition).1 with
  | errorNoError =>
    have := readLine_noError file s.buffer len _ hr
    simp only [hr] at h ⊢
    refine ⟨this.1, ?_⟩
    split <;> (try split) <;> simpa [ScanState.afterRead] using this.2
  | _ => simp [hr] at h

theorem findKey_continue (file : FileData) (cs : Bool) (sect key : List Char) (len : Nat)
    (s : ScanState) (h : (findKey file cs sect key len s).1 = false) :
    s.state.readLinePosition < file.content.length ∧
      s.state.readLinePosition <
        (findKey file cs sect key len s).2.2.state.readLinePosition := by
  unfold findKey at h ⊢
  cases hr : (readLine file s.buffer len s.state.readLinePosition).1 with
  | errorNoError =>
    have := readLine_noError file s.buffer len _ hr
    simp only [hr] at h ⊢
    refine ⟨this.1, ?_⟩
    split <;> (try split) <;> simpa [ScanState.afterRead] using this.2
  | _ => simp [hr] at h

theorem findSection_phase (file : FileData) (cs : Bool) (sect : List Char) (len : Nat)
    (s : ScanState) :
    (findSection file cs sect len s).2.state.getValueState = s.state.getValueState := by
  unfold findSection
  dsimp only
  cases (readLine file s.buffer len s.state.readLinePosition).1 <;> try rfl
  dsimp only
  cases classify (readLine file s.buffer len s.state.readLinePosition).2.1 <;> try rfl
  dsimp only
  split <;> rfl

theorem findKey_phase (file : FileData) (cs : Bool) (sect key : List Char) (len : Nat)
    (s : ScanState) :
    (findKey file cs sect key len s).2.2.state.getValueState = s.state.getValueState := by
  unfold findKey
  dsimp only
  cases (readLine file s.buffer len s.state.readLinePosition).1 <;> try rfl
  dsimp only
  cases classify (readLine file s.buffer len s.state.readLinePosition).2.1 <;> try rfl
  dsimp only
  split <;> rfl

/-- The first phase of the blocking form ends: a step that does not stop has
moved the cursor forward inside the file. -/
theorem findSectionAll_terminates (file : FileData) (cs : Bool) (sect : List Char) (len : Nat) :
    ∀ (fuel : Nat) (s : ScanState), file.content.length - s.state.readLinePosition < fuel →
      ∃ s', findSectionAll file cs sect len fuel s = some s' := by
  intro fuel
  induction fuel with
  | zero => intro s h; omega
  | succ n ih =>
    intro s h
    rw [findSectionAll_succ]
    by_cases hd : (findSection file cs sect len s).1 = true
    · exact ⟨(findSection file cs sect len s).2, by simp [hd]⟩
    · have hd' : (findSection file cs sect len s).1 = false := by simpa using hd
      obtain ⟨h1, h2⟩ := findSection_continue file cs sect len s hd'
      obtain ⟨s', hs'⟩ := ih (findSection file cs sect len s).2 (by omega)
      exact ⟨s', by simp [hd', hs']⟩

theorem findKeyAll_terminates (file : FileData) (cs : Bool) (sect key : List Char) (len : Nat) :
    ∀ (fuel : Nat) (s : ScanState), file.content.length - s.state.readLinePosition < fuel →
      ∃ r, findKeyAll file cs sect key len fuel s = some r := by
  intro fuel
  induction fuel with
  | zero => intro s h; omega
  | succ n ih =>
    intro s h
    rw [findKeyAll_succ]
    by_cases hd : (findKey file cs sect key len s).1 = true
    · exact ⟨(findKey file cs sect key len s).2, by simp [hd]⟩
    · have hd' : (findKey file cs sect key len s).1 = false := by simpa using hd
      obtain ⟨h1, h2⟩ := findKey_continue file cs sect key len s hd'
      obtain ⟨r, hr⟩ := ih (findKey file cs sect key len s).2.2 (by omega)
      exact ⟨r, by simp [hd', hr]⟩

theorem findSectionAll_mono (file : FileData) (cs : Bool) (sect : List Char) (len : Nat) :
    ∀ (fuel k : Nat) (s s' : ScanState), findSectionAll file cs sect len fuel s = some s' →
      findSectionAll file cs sect len (fuel + k) s = some s' := by
  intro fuel
  induction fuel with
  | zero => intro k s s' h; simp [findSectionAll] at h
  | succ n ih =>
    intro k s s' h
    have : n + 1 + k = (n + k) + 1 := by omega
    rw [this, findSectionAll_succ]
    rw [findSectionAll_succ] at h
    by_cases hd : (findSection file cs sect len s).1 = true
    · simpa [hd] using h
    · have hd' : (findSection file cs sect len s).1 = false := by simpa using hd
      simp only [hd', Bool.false_eq_true, if_false] at h ⊢
      exact ih k _ _ h

theorem findKeyAll_mono (file : FileData) (cs : Bool) (sect key : List Char) (len : Nat) :
    ∀ (fuel k : Nat) (s : ScanState) (r : List Char × ScanState),
      findKeyAll file cs sect key len fuel s = some r →
      findKeyAll file cs sect key len (fuel + k) s = some r := by
  intro fuel
  induction fuel with
  | zero => intro k s r h; simp [findKeyAll] at h
  | succ n ih =>
    intro k s r h
    have : n + 1 + k = (n + k) + 1 := by omega
    rw [this, findKeyAll_succ]
    rw [findKeyAll_succ] at h
    by_cases hd : (findKey file cs sect key len s).1 = true
    · simpa [hd] using h
    · have hd' : (findKey file cs sect key len s).1 = false := by simpa using hd
      simp only [hd', Bool.false_eq_true, if_false] at h ⊢
      exact ih k _ _ h

theorem getValueResumable_key (file : FileData) (cs : Bool) (sect key : List Char) (len : Nat)
    (s : ScanState) (hp : s.state.getValueState = funcFindKey) :
    getValueResumable file cs sect key len s =
      if (findKey file cs sect key len s).1 then
        (true,
          if (findKey file cs sect key len s).2.2.error ≠ errorNoError then
            (findKey file cs sect key len s).2.2
          else { (findKey file cs sect key len s).2.2 with
                 buffer := (findKey file cs sect key len s).2.1 })
      else (false, (findKey file cs sect key len s).2.2) := by
  unfold getValueResumable
  rw [hp]
  dsimp only
  split_ifs <;> rfl

theorem getValueResumable_section (file : FileData) (cs : Bool) (sect key : List Char)
    (len : Nat) (s : ScanState) (hp : s.state.getValueState = funcFindSection) :
    getValueResumable file cs sect key len s =
      if (findSection file cs sect len s).1 then
        if (findSection file cs sect len s).2.error ≠ errorNoError then
          (true, (findSection file cs sect len s).2)
        else (false, (findSection file cs sect len s).2.withPhase funcFindKey)
      else (false, (findSection file cs sect len s).2) := by
  unfold getValueResumable
  rw [hp]

/-- In the phase "seeking key" the resumable form, driven to completion, is
the second phase of the blocking form followed by the extraction of the
value. -/
theorem driveResumable_key (file : FileData) (cs : Bool) (sect key : List Char) (len : Nat) :
    ∀ (fuel : Nat) (s : ScanState), s.state.getValueState = funcFindKey →
      driveResumable file cs sect key len fuel s =
        (findKeyAll file cs sect key len fuel s).map
          (fun r => if r.2.error ≠ errorNoError then r.2 else { r.2 with buffer := r.1 }) := by
  intro fuel
  induction fuel with
  | zero => intro s _; rfl
  | succ n ih =>
    intro s hp
    rw [driveResumable_succ, findKeyAll_succ, getValueResumable_key file cs sect key len s hp]
    by_cases hd : (findKey file cs sect key len s).1 = true
    · simp only [hd, if_true, Option.map_some']
    · have hd' : (findKey file cs sect key len s).1 = false := by simpa using hd
      simp only [hd', Bool.false_eq_true, if_false]
      exact ih _ (by rw [findKey_phase, hp])

/-- In the phase "seeking section" the resumable form follows the first phase
of the blocking form, and then either concludes with its error or goes on in
the phase "seeking key" from the state the first phase left. -/
theorem driveResumable_section (file : FileData) (cs : Bool) (sect key : List Char)
    (len : Nat) :
    ∀ (fuel : Nat) (s s1 : ScanState), s.state.getValueState = funcFindSection →
      findSectionAll file cs sect len fuel s = some s1 →
      ∃ n, n ≤ fuel ∧ ∀ k, driveResumable file cs sect key len (n + k) s =
        if s1.error ≠ errorNoError then some s1
        else driveResumable file cs sect key len k (s1.withPhase funcFindKey) := by
  intro fuel
  induction fuel with
  | zero => intro s s1 _ h; simp [findSectionAll] at h
  | succ n ih =>
    intro s s1 hp h
    rw [findSectionAll_succ] at h
    by_cases hd : (findSection file cs sect len s).1 = true
    · simp only [hd, if_true, Option.some.injEq] at h
      refine ⟨1, by omega, ?_⟩
      intro k
      rw [Nat.add_comm 1 k, driveResumable_succ,
        getValueResumable_section file cs sect key len s hp]
      simp only [hd, if_true, h]
      by_cases he : s1.error = errorNoError
      · simp [he]
      · simp [he]
    · have hd' : (findSection file cs sect len s).1 = false := by simpa using hd
      simp only [hd', Bool.false_eq_true, if_false] at h
      obtain ⟨m, hm, hk⟩ := ih (findSection file cs sect len s).2 s1
        (by rw [findSection_phase, hp]) h
      refine ⟨m + 1, by omega, ?_⟩
      intro k
      have : m + 1 + k = (m + k) + 1 := by omega
      rw [this, driveResumable_succ, getValueResumable_section file cs sect key len s hp]
      simp only [hd', Bool.false_eq_true, if_false]
      exact hk k

/-- C2: from a fresh `IniFileState`, calling the resumable `getValue` until it
returns true ends (within `2 * size + 3` calls) with the same last error and
the same buffer contents as one call of the blocking `getValue`, which ends
too, and the blocking form returns true exactly when that last error is
`errorNoError`. -/
theorem resumable_equals_blocking (file : FileData) (cs : Bool) (sect key : List Char)
    (len fuelB fuelR : Nat) (err : error_t) (buf : List Char)
    (hB : file.content.length < fuelB) (hR : 2 * file.content.length + 3 ≤ fuelR) :
    ∃ s' : ScanState,
      driveResumable file cs sect key len fuelR
        { error := err, buffer := buf, state := freshState } = some s' ∧
      getValue file cs sect key len fuelB err buf = some s'.outcome := by
  simp only [ScanState.outcome]
  obtain ⟨s1, hs1⟩ := findSectionAll_terminates file cs sect len (file.content.length + 1)
    { error := err, buffer := buf,
      state := { readLinePosition := 0, getValueState := funcFindSection } } (by simp)
  have hs1B := findSectionAll_mono file cs sect len _ (fuelB - (file.content.length + 1)) _ _ hs1
  rw [show file.content.length + 1 + (fuelB - (file.content.length + 1)) = fuelB by omega]
    at hs1B
  obtain ⟨n, hn, hk⟩ := driveResumable_section file cs sect key len _ _ s1 rfl hs1
  have hstart : driveResumable file cs sect key len fuelR
      { error := err, buffer := buf, state := freshState } =
      driveResumable file cs sect key len (n + (fuelR - 1 - n))
        { error := err, buffer := buf,
          state := { readLinePosition := 0, getValueState := funcFindSection } } := by
    rw [show fuelR = (n + (fuelR - 1 - n)) + 1 by omega, driveResumable_succ]
    simp [getValueResumable, freshState]
  rw [hstart, hk]
  unfold getValue
  rw [hs1B]
  by_cases he : s1.error = errorNoError
  · obtain ⟨r, hr⟩ := findKeyAll_terminates file cs sect key len (file.content.length + 1)
      (s1.withPhase funcFindKey) (by omega)
    have hrB := findKeyAll_mono file cs sect key len _ (fuelB - (file.content.length + 1)) _ _ hr
    rw [show file.content.length + 1 + (fuelB - (file.content.length + 1)) = fuelB by omega]
      at hrB
    have hrR := findKeyAll_mono file cs sect key len _
      (fuelR - 1 - n - (file.content.length + 1)) _ _ hr
    rw [show file.content.length + 1 + (fuelR - 1 - n - (file.content.length + 1)) =
      fuelR - 1 - n by omega] at hrR
    rw [driveResumable_key file cs sect key len _ _ rfl, hrR]
    obtain ⟨v, s2⟩ := r
    simp only [he, ne_eq, not_true_eq_false, if_false, hrB, Option.map_some']
    by_cases he2 : s2.error = errorNoError
    · exact ⟨_, rfl, by simp [he2]⟩
    · exact ⟨_, rfl, by simp [he2]⟩
  · exact ⟨s1, by simp [he], by simp [he]⟩

/-- The witness of C2: the file `[A] x=1 / [B] x=2`, lookup `(B, x)`, in a
buffer of capacity 16. -/
theorem resumable_equals_blocking_witness :
    (FileData.ofString "[A]\nx=1\n[B]\nx=2\n").content.length < 20 ∧
    2 * (FileData.ofString "[A]\nx=1\n[B]\nx=2\n").content.length + 3 ≤ 40 ∧
    ∃ s' : ScanState,
      driveResumable (FileData.ofString "[A]\nx=1\n[B]\nx=2\n") false "B".toList "x".toList 16 40
        { error := errorUnknownError, buffer := [], state := freshState } = some s' ∧
      getValue (FileData.ofString "[A]\nx=1\n[B]\nx=2\n") false "B".toList "x".toList 16 20
          errorUnknownError [] = some s'.outcome :=
  ⟨by decide, by decide,
    resumable_equals_blocking (FileData.ofString "[A]\nx=1\n[B]\nx=2\n") false "B".toList
      "x".toList 16 20 40 errorUnknownError [] (by decide) (by decide)⟩

/-- C3: from a cursor just past a section header, when the lines read before
the next section header (or before the end of the file) hold no line of the
wanted key, `findKey` driven to completion stops with `errorKeyNotFound`, the
cursor just past that next header, whatever the later sections hold. For the
file `[A] x=1 / [B] x=2` the lookup `(B, x)` yields `2`, and for
`[A] x=1 / [B] y=2` the lookup `(A, y)` is not found. -/
theorem findKey_stops_at_next_section (file : FileData) (cs : Bool) (sect key : List Char)
    (len fuel : Nat) (s : ScanState) (pre rest : List (List Char))
    (hseek : ∀ p, file.seekOk p = true)
    (hlines : fileLines (file.content.drop s.state.readLinePosition) = pre ++ rest)
    (hpre : ∀ l ∈ pre, l.length ≤ len - 1 ∧ isHeader l = false ∧ keyValueOf cs key l = none)
    (hrest : rest = [] ∨
      ∃ hd post, rest = hd :: post ∧ hd.length ≤ len - 1 ∧ isHeader hd = true)
    (hfuel : pre.length < fuel) :
    (∃ s' : ScanState, findKeyAll file cs sect key len fuel s = some ([], s') ∧
      s'.error = errorKeyNotFound ∧
      fileLines (file.content.drop s'.state.readLinePosition) = rest.tail) ∧
    getValue (FileData.ofString "[A]\nx=1\n[B]\nx=2\n") false "B".toList "x".toList 16 20
      errorNoError [] = some { found := true, error := errorNoError, buffer := "2".toList } ∧
    getValue (FileData.ofString "[A]\nx=1\n[B]\ny=2\n") false "A".toList "y".toList 16 20
      errorNoError [] =
      some { found := false, error := errorKeyNotFound, buffer := "[B]".toList } := by
  refine ⟨?_, by decide, by decide⟩
  obtain ⟨s1, _, _, hlines1, hk1⟩ := findKeyAll_skip file cs sect key len hseek pre s rest
    hlines hpre
  obtain ⟨k, hk⟩ : ∃ k, fuel = pre.length + (k + 1) := ⟨fuel - pre.length - 1, by omega⟩
  rcases hrest with hr | ⟨hd, post, hr, hfit, hhdr⟩
  · subst hr
    refine ⟨s1.afterRead (errorEndOfFile, [], s1.state.readLinePosition) errorKeyNotFound,
      ?_, rfl, ?_⟩
    · rw [hk, hk1 (k + 1), findKeyAll_at_end file cs sect key len k hseek s1 hlines1]
    · simpa [ScanState.afterRead] using hlines1
  · subst hr
    obtain ⟨s2, hrun, he2, _, hl2⟩ :=
      findKeyAll_at_header file cs sect key len k hseek s1 hd post hlines1 hfit hhdr
    exact ⟨s2, by rw [hk, hk1 (k + 1), hrun], he2, by simpa using hl2⟩

/-- The witness of C3: the file `[A] x=1 / (blank) / [B] y=2`, the cursor just
past the header `[A]`, the key `y`. -/
theorem findKey_stops_at_next_section_witness :
    (∃ s' : ScanState,
      findKeyAll (FileData.ofString "[A]\nx=1\n\n[B]\ny=2\n") false "A".toList "y".toList 16 5
        { error := errorNoError, buffer := "[A]".toList,
          state := { readLinePosition := 4, getValueState := funcFindKey } } = some ([], s') ∧
      s'.error = errorKeyNotFound ∧
      fileLines ((FileData.ofString "[A]\nx=1\n\n[B]\ny=2\n").content.drop
        s'.state.readLinePosition) = ["[B]".toList, "y=2".toList].tail) ∧
    getValue (FileData.ofString "[A]\nx=1\n[B]\nx=2\n") false "B".toList "x".toList 16 20
      errorNoError [] = some { found := true, error := errorNoError, buffer := "2".toList } ∧
    getValue (FileData.ofString "[A]\nx=1\n[B]\ny=2\n") false "A".toList "y".toList 16 20
      errorNoError [] =
      some { found := false, error := errorKeyNotFound, buffer := "[B]".toList } :=
  findKey_stops_at_next_section (FileData.ofString "[A]\nx=1\n\n[B]\ny=2\n") false "A".toList
    "y".toList 16 5
    { error := errorNoError, buffer := "[A]".toList,
      state := { readLinePosition := 4, getValueState := funcFindKey } }
    ["x=1".toList, []] ["[B]".toList, "y=2".toList]
    (fun _ => rfl) (by decide) (by decide)
    (Or.inr ⟨"[B]".toList, ["y=2".toList], rfl, by decide, by decide⟩) (by decide)

end IniFile
